import Mathlib

/-!
Verification development for the Coquette TUI (`simple_tui.py`).

Strings are modelled as `List Char`.  Python's `json.loads` is modelled by an
executable recursive-descent parser over a `Json` value type; JSON numbers are
kept as their raw lexemes (floating-point semantics is out of scope and never
needed by the properties below).  Wall-clock times (`time.time()`,
`datetime.now()`) are modelled as a `Nat` parameter `now` threaded through the
state transitions.
-/

set_option maxHeartbeats 1000000
set_option maxRecDepth 10000

/-- The opening brace character, written via its code point. -/
def lbrace : Char := Char.ofNat 123

/-- The closing brace character, written via its code point. -/
def rbrace : Char := Char.ofNat 125

/-- The double-quote character. -/
def quoteC : Char := Char.ofNat 34

/-- The backslash character. -/
def bslashC : Char := Char.ofNat 92

/-- JSON whitespace: exactly the four characters skipped by Python's `json`
decoder (`WHITESPACE = re.compile(r'[ \t\n\r]*')`). -/
def isJsonWs (c : Char) : Bool :=
  c = ' ' || c = '\t' || c = '\n' || c = '\r'

/-- Python `str.isspace` / the character set removed by `str.strip()` with no
arguments: Unicode whitespace. -/
def pyIsSpace (c : Char) : Bool :=
  c = ' ' || c = '\t' || c = '\n' || c = '\r' || c = '\x0b' || c = '\x0c' ||
  c = '\x1c' || c = '\x1d' || c = '\x1e' || c = '\x1f' || c = '\x85' ||
  c = '\xa0' || c.toNat = 0x1680 ||
  (0x2000 ≤ c.toNat && c.toNat ≤ 0x200a) ||
  c.toNat = 0x2028 || c.toNat = 0x2029 || c.toNat = 0x202f ||
  c.toNat = 0x205f || c.toNat = 0x3000

/-- Drop a trailing run of characters satisfying `p` (helper for `strip`). -/
def dropTrailing (p : Char → Bool) (l : List Char) : List Char :=
  ((l.reverse.dropWhile p).reverse)

/-- Python `str.strip()` with no arguments: remove leading and trailing
Unicode whitespace. -/
def pyStrip (l : List Char) : List Char :=
  dropTrailing pyIsSpace (l.dropWhile pyIsSpace)

/-- Remove leading and trailing JSON whitespace (the four-character class the
`json` module skips around a top-level value). -/
def trimJsonWs (l : List Char) : List Char :=
  dropTrailing isJsonWs (l.dropWhile isJsonWs)

/-- Python `needle in hay` on strings: substring containment. -/
def strContains (hay needle : List Char) : Bool :=
  hay.tails.any (fun t => needle.isPrefixOf t)

/-- Python `message.lower()`; faithful on ASCII, which is all the classifier
compares against. -/
def pyLowerChar (c : Char) : Char :=
  if 'A' ≤ c ∧ c ≤ 'Z' then Char.ofNat (c.toNat + 32) else c

/-- Lowercase a string (ASCII). -/
def pyLower (l : List Char) : List Char := l.map pyLowerChar

/-- JSON values as produced by `json.loads`.  Numbers keep their raw lexeme;
objects keep their key/value pairs in source order (lookups take the last
binding, matching Python `dict` construction from duplicate keys). -/
inductive Json where
  | null : Json
  | bool (b : Bool) : Json
  | num (raw : List Char) : Json
  | str (s : List Char) : Json
  | arr (elems : List Json) : Json
  | obj (entries : List (List Char × Json)) : Json

mutual

/-- Decidable equality for `Json` (the derive handler does not support the
nested occurrences). -/
def Json.decEq : (a b : Json) → Decidable (a = b)
  | .null, .null => isTrue rfl
  | .bool a, .bool b =>
    if h : a = b then isTrue (by rw [h]) else isFalse (fun hh => h (Json.bool.inj hh))
  | .num a, .num b =>
    if h : a = b then isTrue (by rw [h]) else isFalse (fun hh => h (Json.num.inj hh))
  | .str a, .str b =>
    if h : a = b then isTrue (by rw [h]) else isFalse (fun hh => h (Json.str.inj hh))
  | .arr xs, .arr ys =>
    match Json.decEqList xs ys with
    | isTrue h => isTrue (by rw [h])
    | isFalse h => isFalse (fun hh => h (Json.arr.inj hh))
  | .obj xs, .obj ys =>
    match Json.decEqKVs xs ys with
    | isTrue h => isTrue (by rw [h])
    | isFalse h => isFalse (fun hh => h (Json.obj.inj hh))
  | .null, .bool _ => isFalse (fun h => Json.noConfusion h)
  | .null, .num _ => isFalse (fun h => Json.noConfusion h)
  | .null, .str _ => isFalse (fun h => Json.noConfusion h)
  | .null, .arr _ => isFalse (fun h => Json.noConfusion h)
  | .null, .obj _ => isFalse (fun h => Json.noConfusion h)
  | .bool _, .null => isFalse (fun h => Json.noConfusion h)
  | .bool _, .num _ => isFalse (fun h => Json.noConfusion h)
  | .bool _, .str _ => isFalse (fun h => Json.noConfusion h)
  | .bool _, .arr _ => isFalse (fun h => Json.noConfusion h)
  | .bool _, .obj _ => isFalse (fun h => Json.noConfusion h)
  | .num _, .null => isFalse (fun h => Json.noConfusion h)
  | .num _, .bool _ => isFalse (fun h => Json.noConfusion h)
  | .num _, .str _ => isFalse (fun h => Json.noConfusion h)
  | .num _, .arr _ => isFalse (fun h => Json.noConfusion h)
  | .num _, .obj _ => isFalse (fun h => Json.noConfusion h)
  | .str _, .null => isFalse (fun h => Json.noConfusion h)
  | .str _, .bool _ => isFalse (fun h => Json.noConfusion h)
  | .str _, .num _ => isFalse (fun h => Json.noConfusion h)
  | .str _, .arr _ => isFalse (fun h => Json.noConfusion h)
  | .str _, .obj _ => isFalse (fun h => Json.noConfusion h)
  | .arr _, .null => isFalse (fun h => Json.noConfusion h)
  | .arr _, .bool _ => isFalse (fun h => Json.noConfusion h)
  | .arr _, .num _ => isFalse (fun h => Json.noConfusion h)
  | .arr _, .str _ => isFalse (fun h => Json.noConfusion h)
  | .arr _, .obj _ => isFalse (fun h => Json.noConfusion h)
  | .obj _, .null => isFalse (fun h => Json.noConfusion h)
  | .obj _, .bool _ => isFalse (fun h => Json.noConfusion h)
  | .obj _, .num _ => isFalse (fun h => Json.noConfusion h)
  | .obj _, .str _ => isFalse (fun h => Json.noConfusion h)
  | .obj _, .arr _ => isFalse (fun h => Json.noConfusion h)

/-- Decidable equality on lists of `Json`. -/
def Json.decEqList : (a b : List Json) → Decidable (a = b)
  | [], [] => isTrue rfl
  | [], _ :: _ => isFalse (fun h => List.noConfusion h)
  | _ :: _, [] => isFalse (fun h => List.noConfusion h)
  | x :: xs, y :: ys =>
    match Json.decEq x y with
    | isFalse h1 => isFalse (fun h => h1 (List.cons.inj h).1)
    | isTrue h1 =>
      match Json.decEqList xs ys with
      | isTrue h2 => isTrue (by rw [h1, h2])
      | isFalse h2 => isFalse (fun h => h2 (List.cons.inj h).2)

/-- Decidable equality on JSON object entry lists. -/
def Json.decEqKVs : (a b : List (List Char × Json)) → Decidable (a = b)
  | [], [] => isTrue rfl
  | [], _ :: _ => isFalse (fun h => List.noConfusion h)
  | _ :: _, [] => isFalse (fun h => List.noConfusion h)
  | (k1, v1) :: xs, (k2, v2) :: ys =>
    if hk : k1 = k2 then
      match Json.decEq v1 v2 with
      | isFalse h1 =>
        isFalse (fun h => h1 (congrArg Prod.snd (List.cons.inj h).1))
      | isTrue h1 =>
        match Json.decEqKVs xs ys with
        | isTrue h2 => isTrue (by rw [hk, h1, h2])
        | isFalse h2 => isFalse (fun h => h2 (List.cons.inj h).2)
    else
      isFalse (fun h => hk (congrArg Prod.fst (List.cons.inj h).1))

end

instance : DecidableEq Json := Json.decEq

/-- Python `dict.get(k)`: last binding for the key wins. -/
def dictGet (kvs : List (List Char × Json)) (k : List Char) : Option Json :=
  (kvs.reverse.find? (fun p => p.1 = k)).map (fun p => p.2)

/-- Python `dict.get(k, d)`. -/
def dictGetD (kvs : List (List Char × Json)) (k : List Char) (d : Json) : Json :=
  (dictGet kvs k).getD d

/-- Python `k in dict`. -/
def dictHas (kvs : List (List Char × Json)) (k : List Char) : Bool :=
  kvs.any (fun p => p.1 = k)

/-- Hexadecimal digit value, for string `\uXXXX` escapes. -/
def hexVal (c : Char) : Option Nat :=
  if '0' ≤ c ∧ c ≤ '9' then some (c.toNat - '0'.toNat)
  else if 'a' ≤ c ∧ c ≤ 'f' then some (c.toNat - 'a'.toNat + 10)
  else if 'A' ≤ c ∧ c ≤ 'F' then some (c.toNat - 'A'.toNat + 10)
  else none

/-- Parse the body of a JSON string (after the opening quote), handling the
escape sequences accepted by Python's decoder.  Lone `\uXXXX` escapes are
mapped through `Char.ofNat`; surrogate-pair recombination is not modelled (no
property below depends on it).  Fuel-indexed so the kernel can evaluate it;
one unit of fuel is spent per consumed character, so fuel equal to the input
length always suffices. -/
def parseJStringF : Nat → List Char → Option (List Char × List Char)
  | _, [] => none
  | 0, _ => none
  | Nat.succ fuel, c :: cs =>
    if c = quoteC then some ([], cs)
    else if c = bslashC then
      match cs with
      | [] => none
      | e :: rest =>
        if e = quoteC then (parseJStringF fuel rest).map (fun p => (quoteC :: p.1, p.2))
        else if e = bslashC then (parseJStringF fuel rest).map (fun p => (bslashC :: p.1, p.2))
        else if e = '/' then (parseJStringF fuel rest).map (fun p => ('/' :: p.1, p.2))
        else if e = 'b' then (parseJStringF fuel rest).map (fun p => ('\x08' :: p.1, p.2))
        else if e = 'f' then (parseJStringF fuel rest).map (fun p => ('\x0c' :: p.1, p.2))
        else if e = 'n' then (parseJStringF fuel rest).map (fun p => ('\n' :: p.1, p.2))
        else if e = 'r' then (parseJStringF fuel rest).map (fun p => ('\r' :: p.1, p.2))
        else if e = 't' then (parseJStringF fuel rest).map (fun p => ('\t' :: p.1, p.2))
        else if e = 'u' then
          match rest with
          | h1 :: h2 :: h3 :: h4 :: rest2 =>
            match hexVal h1, hexVal h2, hexVal h3, hexVal h4 with
            | some a, some b, some c2, some d =>
              (parseJStringF fuel rest2).map
                (fun p => (Char.ofNat (((a * 16 + b) * 16 + c2) * 16 + d) :: p.1, p.2))
            | _, _, _, _ => none
          | _ => none
        else none
    else if c.toNat < 32 then none
    else (parseJStringF fuel cs).map (fun p => (c :: p.1, p.2))

/-- JSON string-body parser with sufficient fuel (one unit per consumed
character). -/
def parseJString (l : List Char) : Option (List Char × List Char) :=
  parseJStringF l.length l

/-- Digit test for the JSON number grammar. -/
def isDig (c : Char) : Bool := '0' ≤ c ∧ c ≤ '9'

/-- Parse a JSON number lexeme `-?(0|[1-9][0-9]*)(\.[0-9]+)?([eE][+-]?[0-9]+)?`,
returning the raw lexeme and the rest of the input. -/
def parseJNumber (l : List Char) : Option (List Char × List Char) :=
  let signAndRest : List Char × List Char :=
    match l with
    | c :: cs => if c = '-' then ([c], cs) else ([], l)
    | [] => ([], l)
  let sgn := signAndRest.1
  let afterSign := signAndRest.2
  let intPart := afterSign.takeWhile isDig
  let afterInt := afterSign.dropWhile isDig
  if intPart = [] then none
  else if intPart.length > 1 ∧ intPart.headD '0' = '0' then none
  else
    let fracAndRest : List Char × List Char :=
      match afterInt with
      | c :: cs =>
        if c = '.' then
          let ds := cs.takeWhile isDig
          if ds = [] then ([], afterInt) else (c :: ds, cs.dropWhile isDig)
        else ([], afterInt)
      | [] => ([], afterInt)
    let frac := fracAndRest.1
    let afterFrac := fracAndRest.2
    let expAndRest : List Char × List Char :=
      match afterFrac with
      | c :: cs =>
        if c = 'e' ∨ c = 'E' then
          match cs with
          | s :: cs' =>
            if s = '+' ∨ s = '-' then
              let ds := cs'.takeWhile isDig
              if ds = [] then ([], afterFrac) else (c :: s :: ds, cs'.dropWhile isDig)
            else
              let ds := cs.takeWhile isDig
              if ds = [] then ([], afterFrac) else (c :: ds, cs.dropWhile isDig)
          | [] => ([], afterFrac)
        else ([], afterFrac)
      | [] => ([], afterFrac)
    some (sgn ++ intPart ++ frac ++ expAndRest.1, expAndRest.2)

mutual

/-- Recursive-descent JSON value parser (fuel-indexed), modelling the grammar
accepted by Python's `json.loads` with its default settings — including the
non-standard constants `NaN`, `Infinity` and `-Infinity` that the CPython
scanner accepts when no `parse_constant` hook is given; like every other
number they are kept as raw lexemes. -/
def parseValue : Nat → List Char → Option (Json × List Char)
  | 0, _ => none
  | Nat.succ fuel, input =>
    match input.dropWhile isJsonWs with
    | [] => none
    | c :: cs =>
      if c = quoteC then (parseJString cs).map (fun p => (Json.str p.1, p.2))
      else if c = lbrace then
        match (cs.dropWhile isJsonWs) with
        | d :: ds =>
          if d = rbrace then some (Json.obj [], ds)
          else
            (parseMembers fuel (cs.dropWhile isJsonWs)).map
              (fun p => (Json.obj p.1, p.2))
        | [] => none
      else if c = '[' then
        match (cs.dropWhile isJsonWs) with
        | d :: ds =>
          if d = ']' then some (Json.arr [], ds)
          else (parseElems fuel (cs.dropWhile isJsonWs)).map
              (fun p => (Json.arr p.1, p.2))
        | [] => none
      else if c = 't' then
        match cs with
        | 'r' :: 'u' :: 'e' :: rest => some (Json.bool true, rest)
        | _ => none
      else if c = 'f' then
        match cs with
        | 'a' :: 'l' :: 's' :: 'e' :: rest => some (Json.bool false, rest)
        | _ => none
      else if c = 'n' then
        match cs with
        | 'u' :: 'l' :: 'l' :: rest => some (Json.null, rest)
        | _ => none
      else if c = 'N' then
        match cs with
        | 'a' :: 'N' :: rest => some (Json.num ("NaN".toList), rest)
        | _ => none
      else if c = 'I' then
        match cs with
        | 'n' :: 'f' :: 'i' :: 'n' :: 'i' :: 't' :: 'y' :: rest =>
          some (Json.num ("Infinity".toList), rest)
        | _ => none
      else if c = '-' ∨ isDig c then
        match parseJNumber (c :: cs) with
        | some p => some (Json.num p.1, p.2)
        | none =>
          if c = '-' then
            match cs with
            | 'I' :: 'n' :: 'f' :: 'i' :: 'n' :: 'i' :: 't' :: 'y' :: rest =>
              some (Json.num ("-Infinity".toList), rest)
            | _ => none
          else none
      else none

/-- Parse one or more `"key": value` members followed by `}`. -/
def parseMembers : Nat → List Char → Option (List (List Char × Json) × List Char)
  | 0, _ => none
  | Nat.succ fuel, input =>
    match input with
    | c :: cs =>
      if c = quoteC then
        match parseJString cs with
        | some (key, afterKey) =>
          match afterKey.dropWhile isJsonWs with
          | ':' :: afterColon =>
            match parseValue fuel afterColon with
            | some (v, afterVal) =>
              match afterVal.dropWhile isJsonWs with
              | ',' :: afterComma =>
                match (parseMembers fuel (afterComma.dropWhile isJsonWs)) with
                | some (kvs, rest) => some ((key, v) :: kvs, rest)
                | none => none
              | d :: rest =>
                if d = rbrace then some ([(key, v)], rest) else none
              | [] => none
            | none => none
          | _ => none
        | none => none
      else none
    | [] => none

/-- Parse one or more array elements followed by `]`. -/
def parseElems : Nat → List Char → Option (List Json × List Char)
  | 0, _ => none
  | Nat.succ fuel, input =>
    match parseValue fuel input with
    | some (v, afterVal) =>
      match afterVal.dropWhile isJsonWs with
      | ',' :: afterComma =>
        match parseElems fuel afterComma with
        | some (vs, rest) => some (v :: vs, rest)
        | none => none
      | ']' :: rest => some ([v], rest)
      | _ => none
    | none => none

end

/-- Model of Python `json.loads` on a string: strip the surrounding JSON
whitespace, parse exactly one value, and require the input to be exhausted
(`Extra data` otherwise).  `none` models `json.JSONDecodeError`. -/
def json_loads (l : List Char) : Option Json :=
  let t := trimJsonWs l
  match parseValue (t.length + 1) t with
  | some (v, []) => some v
  | _ => none

/-- Step function of Python `str.replace` (fuel-indexed). -/
def pyReplaceF (p : Char) (ps rep : List Char) : Nat → List Char → List Char
  | _, [] => []
  | 0, l => l
  | Nat.succ fuel, c :: cs =>
    if (p :: ps).isPrefixOf (c :: cs) then rep ++ pyReplaceF p ps rep fuel (cs.drop ps.length)
    else c :: pyReplaceF p ps rep fuel cs

/-- Python `str.replace(pat, rep)` for a non-empty pattern `p :: ps`: scan
left to right, replacing non-overlapping occurrences.  Fuel equal to the
input length suffices since every step consumes at least one character. -/
def pyReplace (p : Char) (ps rep : List Char) (l : List Char) : List Char :=
  pyReplaceF p ps rep l.length l

/-- Run-length encoding of a string: maximal runs of equal characters. -/
def runs : List Char → List (Char × Nat)
  | [] => []
  | c :: cs =>
    match runs cs with
    | (d, n) :: rs => if c = d then (d, n + 1) :: rs else (c, 1) :: (d, n) :: rs
    | [] => [(c, 1)]

/-- Decode a run-length encoding. -/
def decodeRuns : List (Char × Nat) → List Char
  | [] => []
  | (c, n) :: rs => List.replicate n c ++ decodeRuns rs

/-- Model of `re.sub(c{t,}, c^(t-1), s)`: every maximal run of `c` of length at
least `t` is replaced by a run of length `t - 1`; shorter runs are kept.  This
is the effect of the two `re.sub` calls in `clean_response_formatting`
(`\n{3,}` ↦ `\n\n` and ` {2,}` ↦ ` `). -/
def squeezeRun (c : Char) (t : Nat) (l : List Char) : List Char :=
  decodeRuns ((runs l).map (fun p => if p.1 = c ∧ t ≤ p.2 then (c, t - 1) else p))

/-- `clean_response_formatting` (simple_tui.py lines 956-976): strip markdown
emphasis characters, collapse runs of 3+ newlines to 2 and runs of 2+ spaces
to 1, unescape `\"` and `\n` sequences, and strip the result.  The
`replace('**','')` and `replace('__','')` calls run after all single `*` and
`_` characters are already removed, exactly as in the source. -/
def clean_response_formatting (content : List Char) : List Char :=
  if content = [] then content
  else
    let c1 := pyReplace '*' [] [] content
    let c2 := pyReplace '_' [] [] c1
    let c3 := pyReplace '*' ['*'] [] c2
    let c4 := pyReplace '_' ['_'] [] c3
    let c5 := squeezeRun '\n' 3 c4
    let c6 := squeezeRun ' ' 2 c5
    let c7 := pyReplace bslashC [quoteC] [quoteC] c6
    let c8 := pyReplace bslashC ['n'] ['\n'] c7
    pyStrip c8

/-- Python truthiness of a JSON value (`if x:`).  A number is falsy exactly
when its mantissa digits are all zero. -/
def jsonTruthy : Json → Bool
  | Json.null => false
  | Json.bool b => b
  | Json.num raw =>
    ¬ ((raw.takeWhile (fun c => c ≠ 'e' ∧ c ≠ 'E')).all
        (fun c => c = '0' ∨ c = '-' ∨ c = '.'))
  | Json.str s => s ≠ []
  | Json.arr xs => xs ≠ []
  | Json.obj kvs => kvs ≠ []

/-- Candidate test of the response extractor (simple_tui.py lines 596-600): a
span is kept when it parses to a JSON object containing both a `content` and a
`metadata` key. -/
def isCandidate (span : List Char) : Bool :=
  match json_loads span with
  | some (Json.obj kvs) =>
    dictHas kvs ("content".toList) && dictHas kvs ("metadata".toList)
  | _ => false

/-- State of the balanced-brace candidate scan (lines 583-603): brace depth,
pending start position, collected candidate spans. -/
structure ScanSt where
  bc : Int
  sp : Option Nat
  acc : List (List Char)

/-- One character step of the candidate scan (lines 587-603).  On `{` at depth
zero the start position is recorded; on `}` returning the depth to zero the
span is tested with `isCandidate` and the start position is cleared. -/
def candStep (orig : List Char) (st : ScanSt) (ic : Nat × Char) : ScanSt :=
  let i := ic.1
  let c := ic.2
  if c = lbrace then
    { st with sp := if st.bc = 0 then some i else st.sp, bc := st.bc + 1 }
  else if c = rbrace then
    let bc' := st.bc - 1
    if bc' = 0 then
      match st.sp with
      | some p =>
        let span := (orig.drop p).take (i + 1 - p)
        { bc := bc', sp := none,
          acc := if isCandidate span then st.acc ++ [span] else st.acc }
      | none => { st with bc := bc' }
    else { st with bc := bc' }
  else st

/-- All candidate spans collected by the scan, in order of their closing
brace. -/
def jsonCandidates (s : List Char) : List (List Char) :=
  (s.enum.foldl (candStep s) ⟨0, none, []⟩).acc

/-- The balanced-brace scan of the fallback path (lines 613-622): starting
depth 0, return the length of the prefix ending at the first `}` that brings
the depth back to zero. -/
def braceScanEnd : List Char → Int → Nat → Option Nat
  | [], _, _ => none
  | c :: cs, bc, i =>
    if c = lbrace then braceScanEnd cs (bc + 1) (i + 1)
    else if c = rbrace then
      if bc - 1 = 0 then some (i + 1) else braceScanEnd cs (bc - 1) (i + 1)
    else braceScanEnd cs bc (i + 1)

/-- Fallback span selection (lines 609-629): from the first `{` take the first
balanced span; if the scan never closes, the whole tail; if there is no `{`,
the whole cleaned text. -/
def fallbackSpan (clean : List Char) : List Char :=
  match clean.findIdx? (fun c => c = lbrace) with
  | none => clean
  | some j =>
    let part := clean.drop j
    match braceScanEnd part 0 0 with
    | some e => part.take e
    | none => part

/-- The JSON text the extractor chooses to parse: the last collected candidate
if any (line 607), otherwise the fallback span. -/
def chosenSpan (clean : List Char) : List Char :=
  match (jsonCandidates clean).getLast? with
  | some c => c
  | none => fallbackSpan clean

/-- Outcome of the zero-exit response path: either an assistant message with
the given content is appended, or an exception (e.g. `AttributeError` on a
non-dict response or a truthy non-string content) escapes to the generic
handler at line 695. -/
inductive PyOutcome where
  | ok (content : Json) : PyOutcome
  | raised : PyOutcome

instance : DecidableEq PyOutcome := fun a b =>
  match a, b with
  | .ok x, .ok y =>
    if h : x = y then isTrue (by rw [h]) else isFalse (fun hh => h (PyOutcome.ok.inj hh))
  | .raised, .raised => isTrue rfl
  | .ok _, .raised => isFalse (fun h => PyOutcome.noConfusion h)
  | .raised, .ok _ => isFalse (fun h => PyOutcome.noConfusion h)

/-- The content of the assistant message appended by `send_message` on the
zero-exit path (lines 575-671): strip standard output, choose a span, parse
it, and either return the cleaned `content` field, fall back to the raw
trimmed text (or `No response` when empty) on `json.JSONDecodeError`, or
raise (`response.get` on a non-dict; `clean_response_formatting` on a truthy
non-string content). -/
def response_message (full_stdout : List Char) : PyOutcome :=
  let clean_stdout := pyStrip full_stdout
  let clean_json := chosenSpan clean_stdout
  match json_loads clean_json with
  | some (Json.obj kvs) =>
    match dictGetD kvs ("content".toList) (Json.str ("No response".toList)) with
    | Json.str s => PyOutcome.ok (Json.str (clean_response_formatting s))
    | c => if jsonTruthy c then PyOutcome.raised else PyOutcome.ok c
  | some _ => PyOutcome.raised
  | none =>
    PyOutcome.ok (Json.str (if clean_stdout = [] then ("No response".toList) else clean_stdout))

/-- A chat message as appended to `self.messages`; optional fields model the
keys that only some append sites set. -/
structure Msg where
  role : List Char
  content : Json
  timestamp : Nat
  immediate : Option Bool := none
  source : Option Json := none
  tool : Option Json := none
deriving DecidableEq

/-- The mutable TUI state fields (class `CoquetteTUI`), restricted to the
fields read or written by the classifier, the status renderer and the claims.
`last_response_time` and the time fields are modelled as whole numbers. -/
structure SessionState where
  messages : List Msg
  status : List Char
  provider : List Char
  personality : List Char
  streaming : Bool
  thinking : Bool
  copy_mode : Bool
  conversation_context : Bool
  tools_enabled : Bool
  view_mode : List Char
  error_contexts_loaded : Bool
  error_context_count : Nat
  file_operations_active : Bool
  recovery_attempts : Nat
  connection_status : List Char
  current_tool_activity : List Char
  tool_progress_dots : Nat
  tool_start_time : Option Nat
  last_response_time : Nat
  total_messages_processed : Nat
deriving DecidableEq

/-- The state set up by `CoquetteTUI.__init__`. -/
def initState : SessionState where
  messages := []
  status := ("Ready".toList)
  provider := ("claude".toList)
  personality := ("ani".toList)
  streaming := true
  thinking := false
  copy_mode := false
  conversation_context := true
  tools_enabled := false
  view_mode := ("personality".toList)
  error_contexts_loaded := false
  error_context_count := 0
  file_operations_active := false
  recovery_attempts := 0
  connection_status := ("unknown".toList)
  current_tool_activity := []
  tool_progress_dots := 0
  tool_start_time := none
  last_response_time := 0
  total_messages_processed := 0

/-- Decimal rendering of a natural number. -/
def natChars (n : Nat) : List Char := (toString n).toList

/-- Rendering of the `:.1f` format for a whole-second duration (floating
point display is out of scope; durations are modelled as whole seconds). -/
def fmt1 (n : Nat) : List Char := natChars n ++ (".0".toList)

/-- Python `str()` of a JSON value as used inside f-strings.  Faithful for
strings, integer lexemes, booleans and `None`; the `repr` of containers and
float re-rendering are not modelled (no property below depends on them). -/
def pyStr : Json → List Char
  | Json.str s => s
  | Json.num raw => raw
  | Json.bool true => ("True".toList)
  | Json.bool false => ("False".toList)
  | Json.null => ("None".toList)
  | Json.arr _ => ("<unmodelled repr>".toList)
  | Json.obj _ => ("<unmodelled repr>".toList)

/-- `update_status` (simple_tui.py lines 177-240): rebuild the status line
from the current state; `now` stands for `time.time()`. -/
def update_status_text (st : SessionState) (now : Nat) : List Char :=
  let context_icon := (if st.conversation_context then "🧠" else "🔄").toList
  let tools_display : List Char :=
    if st.provider = ("local".toList) then
      (" ".toList) ++ (if st.tools_enabled then "🔧" else "💬").toList
    else []
  let view_icon := (if st.view_mode = ("claude_raw".toList) then "🔧" else "🎭").toList
  let base := st.provider ++ (" | ".toList) ++ view_icon ++ st.personality ++
    (" | ".toList) ++ context_icon ++ tools_display
  let inds : List (List Char) :=
    (if st.error_contexts_loaded then [("⚠️".toList) ++ natChars st.error_context_count] else []) ++
    (if st.file_operations_active then [("📁".toList)] else []) ++
    (if st.recovery_attempts > 0 then [("🔄".toList) ++ natChars st.recovery_attempts] else []) ++
    (if st.connection_status = ("error".toList) then [("🔌❌".toList)]
     else if st.connection_status = ("ok".toList) then [("🔌✅".toList)] else []) ++
    (if st.last_response_time > 0 ∧ st.last_response_time > 10 then
      [("⏱️".toList) ++ fmt1 st.last_response_time ++ ("s".toList)] else [])
  let withInds :=
    if inds ≠ [] then base ++ (" | ".toList) ++ List.intercalate (" ".toList) inds else base
  let withRaw :=
    if st.view_mode = ("claude_raw".toList) then withInds ++ (" | RAW VIEW".toList) else withInds
  let withAct :=
    if st.current_tool_activity ≠ [] then
      let dots := List.replicate (st.tool_progress_dots % 4) '.'
      let elapsed : List Char :=
        match st.tool_start_time with
        | some t0 =>
          if t0 ≠ 0 then
            if now - t0 > 2 then (" (".toList) ++ fmt1 (now - t0) ++ ("s)".toList) else []
          else []
        | none => []
      withRaw ++ (" | 🔧 ".toList) ++ st.current_tool_activity ++ dots ++ elapsed
    else if st.thinking then withRaw ++ (" | 💭 thinking...".toList)
    else withRaw
  if st.copy_mode then withAct ++ (" | 📋 COPY MODE (Ctrl+R to resume)".toList) else withAct

/-- The debug-noise keyword list of `should_ignore_message` (lines 726-748). -/
def noiseKeywords : List (List Char) :=
  [ "ollama_request_enqueued",
    "ollama_queue_reordered",
    "ollama_request_processing_start",
    "ollama_api_call_start",
    "ollama_model_switch_delay",
    "ollama_queue_processing_start",
    "ollama_queue_processing_complete",
    "intent_calling_gemma",
    "intent_gemma_response",
    "intent_parsing_response",
    "intent_parsed_successfully",
    "deepseek_json_debug",
    "error_context_agent_initializing",
    "error_context_agent_initialized",
    "component_status_changed",
    "processMessage_start",
    "input_routing_start",
    "input_routing_complete",
    "recursive_validation_iteration",
    "recursive_validation_analysis",
    "recursive_validation_satisfied" ].map String.toList

/-- The important-progress keyword list of `should_ignore_message`
(lines 751-762). -/
def importantKeywords : List (List Char) :=
  [ "system_state_changed",
    "intelligence_router_start",
    "intelligence_router_complete",
    "tools_agent_start",
    "tools_agent_executing_step",
    "subconscious_reasoning_start",
    "subconscious_reasoning_complete",
    "personality_interpretation_start",
    "personality_interpretation_success",
    "ollama_request_success" ].map String.toList

/-- `should_ignore_message` (lines 716-775): for kind `error`, ignore exactly
when one of the two diagnostic markers occurs in the message; non-`engine`
kinds always pass; for `engine`, any noise keyword forces ignoring, otherwise
any important keyword forces showing, otherwise ignore by default. -/
def should_ignore_message (message : List Char) (msg_type : List Char) : Bool :=
  if msg_type = ("error".toList) then
    strContains message ("all_json_blocks_failed".toList) ||
      strContains message ("deepseek_json_debug".toList)
  else if msg_type ≠ ("engine".toList) then false
  else if noiseKeywords.any (fun k => strContains message k) then true
  else if importantKeywords.any (fun k => strContains message k) then false
  else true

/-- String projection of a JSON value (`none` for non-strings, at the points
where Python would raise `TypeError`/`AttributeError`). -/
def asStr : Json → Option (List Char)
  | Json.str s => some s
  | _ => none

/-- The tail of the `engine` dispatch chain (lines 879-943): a
substring-keyed `elif` ladder driving status text and the activity
indicator.  Branches whose Python code would raise (`metadata.get` on a
non-dict, slicing a non-string) return the state accumulated up to the raise
point. -/
def engineChain (st : SessionState) (now : Nat) (m : List Char) (meta : Json) : SessionState :=
  if strContains m ("loading_personality".toList) then
    match meta with
    | Json.obj mkvs =>
      { st with status := (("Loading ".toList) ++
          pyStr (dictGetD mkvs ("message".toList) (Json.str ("personality".toList))) ++
          ("...".toList)) }
    | _ => st
  else if strContains m ("file_operations_calling_gemma".toList) then
    { st with status := ("Planning file operations...".toList) }
  else if strContains m ("file_operation_executing".toList) then
    match meta with
    | Json.obj mkvs =>
      { st with status := (("Executing: ".toList) ++
          pyStr (dictGetD mkvs ("operation".toList) (Json.str ("operation".toList)))) }
    | _ => st
  else if strContains m ("personalizing".toList) ∨
      strContains m ("personality_interpretation".toList) then
    { st with status := ("Personalizing response...".toList) }
  else if strContains m ("intent_classification".toList) then
    { st with
      status := ("🧠 Analyzing intent...".toList),
      current_tool_activity := ("analyzing user intent".toList),
      tool_start_time := some now }
  else if strContains m ("intelligence_router".toList) then
    { st with
      status := ("🤖 Selecting optimal model...".toList),
      current_tool_activity := ("routing to best AI model".toList),
      tool_start_time := some now }
  else if strContains m ("tools_agent_start".toList) then
    { st with
      status := ("🔧 Planning tool execution...".toList),
      current_tool_activity := ("planning tool steps".toList),
      tool_start_time := some now }
  else if strContains m ("tools_agent_executing_step".toList) then
    match meta with
    | Json.obj mkvs =>
      match dictGetD mkvs ("step".toList) (Json.obj []) with
      | Json.obj skvs =>
        let tool_name := dictGetD skvs ("tool".toList) (Json.str ("unknown".toList))
        let description := dictGetD skvs ("description".toList) (Json.str [])
        { st with
          current_tool_activity := (("executing ".toList) ++ pyStr tool_name),
          status :=
            (if jsonTruthy description then
              ("🔧 ".toList) ++ pyStr description ++ ("...".toList)
            else
              ("🔧 Executing ".toList) ++ pyStr tool_name ++ ("...".toList)),
          tool_start_time := some now }
      | _ => st
    | _ => st
  else if strContains m ("recursive_validation".toList) then
    { st with
      status := ("🔍 Validating results recursively...".toList),
      current_tool_activity := ("recursive validation".toList),
      tool_start_time := some now }
  else if strContains m ("subconscious_reasoning".toList) then
    { st with
      status := ("🧠 Deep reasoning with DeepSeek...".toList),
      current_tool_activity := ("deep subconscious analysis".toList),
      tool_start_time := some now }
  else if strContains m ("deepseek_attempt".toList) then
    match meta with
    | Json.obj mkvs =>
      let attempt := dictGetD mkvs ("attempt".toList) (Json.num ['1'])
      { st with
        status := (("🧠 DeepSeek thinking (attempt ".toList) ++ pyStr attempt ++ (")...".toList)),
        current_tool_activity :=
          (("DeepSeek reasoning (try ".toList) ++ pyStr attempt ++ (")".toList)) }
    | _ => st
  else if strContains m ("personality_interpretation".toList) then
    { st with
      status := ("🎭 Ani interpreting response...".toList),
      current_tool_activity := ("personality interpretation".toList),
      tool_start_time := some now }
  else if strContains m ("thinking".toList) then
    match meta with
    | Json.obj mkvs =>
      { st with
        status := (("💭 ".toList) ++
          pyStr (dictGetD mkvs ("message".toList) (Json.str ("Thinking...".toList)))),
        current_tool_activity := ("thinking".toList),
        tool_start_time := some now }
    | _ => st
  else if strContains m ("_complete".toList) ∨ strContains m ("_success".toList) then
    { st with
      current_tool_activity := [],
      tool_start_time := none,
      status := ("✅ Task completed".toList) }
  else if strContains m ("_failed".toList) ∨ strContains (pyLower m) ("error".toList) then
    let st' := { st with current_tool_activity := [], tool_start_time := none }
    match meta with
    | Json.obj mkvs =>
      match dictGetD mkvs ("error".toList) (Json.str ("Unknown error".toList)) with
      | Json.str e =>
        { st' with status := ("❌ Error: ".toList) ++ e.take 50 ++ ("...".toList) }
      | _ => st'
    | _ => st'
  else st

/-- Classification of one parsed diagnostic event object (the body of the
per-line dispatch in `process_system_messages`, lines 791-943).  Where the
Python code would raise past the inner `except json.JSONDecodeError`, the
value is the state accumulated before the raise point (`eventRaises` below
tells the caller that the remaining lines of the chunk are abandoned). -/
def applyEvent (st : SessionState) (now : Nat) (kvs : List (List Char × Json)) : SessionState :=
  let ty := dictGetD kvs ("type".toList) (Json.str [])
  let msgj := dictGetD kvs ("message".toList) (Json.str [])
  let meta := dictGetD kvs ("metadata".toList) (Json.obj [])
  if (ty = Json.str ("error".toList) ∨ ty = Json.str ("engine".toList)) ∧ (asStr msgj).isNone
  then st
  else
    let m := (asStr msgj).getD []
    let ignored :=
      if ty = Json.str ("error".toList) then should_ignore_message m ("error".toList)
      else if ty = Json.str ("engine".toList) then should_ignore_message m ("engine".toList)
      else false
    if ignored then st
    else if ty = Json.str ("assistant_message".toList) then
      match meta with
      | Json.obj mkvs =>
        let content := dictGetD kvs ("content".toList) (Json.str [])
        let source := dictGetD mkvs ("source".toList) (Json.str [])
        match content with
        | Json.str c =>
          if pyStrip c ≠ [] then
            let c' := if source = Json.str ("personality_acknowledgment".toList)
              then ("🎭 ".toList) ++ c else c
            { st with messages := (st.messages ++
                [{ role := ("assistant".toList), content := Json.str c', timestamp := now,
                   immediate := some true, source := some source }]) }
          else st
        | _ => st
      | _ => st
    else if ty = Json.str ("tool_activity".toList) then
      match dictGetD kvs ("activity".toList) (Json.str []) with
      | Json.str a =>
        let st' :=
          if pyStrip a ≠ [] then
            { st with
              current_tool_activity := a,
              tool_start_time := some now,
              tool_progress_dots := 0 }
          else
            { st with current_tool_activity := [], tool_start_time := none }
        { st' with status := update_status_text st' now }
      | _ => st
    else if ty = Json.str ("tool_blurb".toList) then
      match dictGetD kvs ("content".toList) (Json.str []) with
      | Json.str c =>
        if pyStrip c ≠ [] then
          { st with messages := (st.messages ++
              [{ role := ("system".toList), content := Json.str (("🔧 ".toList) ++ c),
                 timestamp := now,
                 tool := some (dictGetD kvs ("tool_name".toList) (Json.str [])) }]) }
        else st
      | _ => st
    else if ty = Json.str ("engine".toList) ∧
        strContains m ("system_state_changed".toList) then
      match meta with
      | Json.obj mkvs =>
        let status := dictGetD mkvs ("status".toList) (Json.str [])
        let status_message := dictGetD mkvs ("message".toList) (Json.str [])
        if status = Json.str ("ready".toList) ∧ jsonTruthy status_message then
          { st with
            messages := (st.messages ++
              [{ role := ("system".toList), content := status_message, timestamp := now }]),
            status := ("Status: Ready".toList) }
        else st
      | _ => st
    else if ty = Json.str ("engine".toList) ∧
        strContains m ("file_operations_user_acknowledgment".toList) then
      match meta with
      | Json.obj mkvs =>
        match dictGetD mkvs ("acknowledgment".toList) (Json.str []) with
        | Json.str a =>
          if pyStrip a ≠ [] then
            { st with messages := (st.messages ++
                [{ role := ("assistant".toList), content := Json.str a, timestamp := now }]) }
          else st
        | _ => st
      | _ => st
    else if ty = Json.str ("engine".toList) then
      engineChain st now m meta
    else st

/-- Whether classifying this parsed event object raises an exception that
escapes the inner `except json.JSONDecodeError` handler (a `TypeError` from
`in` on a non-string, or an `AttributeError` from `.get`/`.strip`/slicing on
a wrongly-typed field), aborting the remaining lines of the chunk via the
outer `except` at line 949. -/
def eventRaises (kvs : List (List Char × Json)) : Bool :=
  let ty := dictGetD kvs ("type".toList) (Json.str [])
  let msgj := dictGetD kvs ("message".toList) (Json.str [])
  let meta := dictGetD kvs ("metadata".toList) (Json.obj [])
  if (ty = Json.str ("error".toList) ∨ ty = Json.str ("engine".toList)) ∧ (asStr msgj).isNone
  then true
  else
    let m := (asStr msgj).getD []
    let ignored :=
      if ty = Json.str ("error".toList) then should_ignore_message m ("error".toList)
      else if ty = Json.str ("engine".toList) then should_ignore_message m ("engine".toList)
      else false
    if ignored then false
    else if ty = Json.str ("assistant_message".toList) then
      (match meta with | Json.obj _ => false | _ => true) ||
        (asStr (dictGetD kvs ("content".toList) (Json.str []))).isNone
    else if ty = Json.str ("tool_activity".toList) then
      (asStr (dictGetD kvs ("activity".toList) (Json.str []))).isNone
    else if ty = Json.str ("tool_blurb".toList) then
      (asStr (dictGetD kvs ("content".toList) (Json.str []))).isNone
    else if ty = Json.str ("engine".toList) ∧
        strContains m ("system_state_changed".toList) then
      match meta with | Json.obj _ => false | _ => true
    else if ty = Json.str ("engine".toList) ∧
        strContains m ("file_operations_user_acknowledgment".toList) then
      (match meta with | Json.obj _ => false | _ => true) ||
        (match meta with
         | Json.obj mkvs =>
           (asStr (dictGetD mkvs ("acknowledgment".toList) (Json.str []))).isNone
         | _ => true)
    else if ty = Json.str ("engine".toList) then
      if strContains m ("loading_personality".toList) then
        match meta with | Json.obj _ => false | _ => true
      else if strContains m ("file_operations_calling_gemma".toList) then false
      else if strContains m ("file_operation_executing".toList) then
        match meta with | Json.obj _ => false | _ => true
      else if strContains m ("personalizing".toList) ∨
          strContains m ("personality_interpretation".toList) then false
      else if strContains m ("intent_classification".toList) then false
      else if strContains m ("intelligence_router".toList) then false
      else if strContains m ("tools_agent_start".toList) then false
      else if strContains m ("tools_agent_executing_step".toList) then
        match meta with
        | Json.obj mkvs =>
          (match dictGetD mkvs ("step".toList) (Json.obj []) with
           | Json.obj _ => false
           | _ => true)
        | _ => true
      else if strContains m ("recursive_validation".toList) then false
      else if strContains m ("subconscious_reasoning".toList) then false
      else if strContains m ("deepseek_attempt".toList) then
        match meta with | Json.obj _ => false | _ => true
      else if strContains m ("personality_interpretation".toList) then false
      else if strContains m ("thinking".toList) then
        match meta with | Json.obj _ => false | _ => true
      else if strContains m ("_complete".toList) ∨ strContains m ("_success".toList) then
        false
      else if strContains m ("_failed".toList) ∨ strContains (pyLower m) ("error".toList) then
        (match meta with | Json.obj _ => false | _ => true) ||
          (match meta with
           | Json.obj mkvs =>
             (asStr (dictGetD mkvs ("error".toList) (Json.str ("Unknown error".toList)))).isNone
           | _ => true)
      else false
    else false

/-- Split a character list at every newline (Python `str.split('\n')`). -/
def splitNL : List Char → List (List Char)
  | [] => [[]]
  | c :: cs =>
    if c = '\n' then [] :: splitNL cs
    else
      match splitNL cs with
      | g :: gs => (c :: g) :: gs
      | [] => [[c]]

/-- Process the lines of one diagnostic chunk in order (the `for line in
lines` loop of `process_system_messages`): blank lines are skipped, lines
that are not a JSON object are skipped, and a raising event keeps its partial
state and abandons the remaining lines (outer `except` at line 949). -/
def runLines (now : Nat) : SessionState → List (List Char) → SessionState
  | st, [] => st
  | st, l :: ls =>
    if pyStrip l = [] then runLines now st ls
    else
      match json_loads l with
      | some (Json.obj kvs) =>
        if eventRaises kvs then applyEvent st now kvs
        else runLines now (applyEvent st now kvs) ls
      | _ => runLines now st ls

/-- `process_system_messages` (lines 777-954) on one stderr chunk: strip the
chunk, split it at newlines, and classify each line in order. -/
def process_system_messages (st : SessionState) (now : Nat) (stderr_output : List Char) :
    SessionState :=
  runLines now st (splitNL (pyStrip stderr_output))

/-- One append step of the PTY reader thread (`read_claude_output`, lines
157-160): extend the buffer with the newly split lines, then truncate to the
most recent 500 lines whenever the length exceeds 1000.  `newLines` stands
for `data.splitlines()`. -/
def read_append (buffer newLines : List (List Char)) : List (List Char) :=
  let b := buffer ++ newLines
  if 1000 < b.length then b.drop (b.length - 500) else b

/-- Exit search of the `send_message` polling loop (lines 521-532): the loop
breaks at the first iteration whose `process.poll()` is not `None`; there is
no other exit, no timeout check and no kill call in the loop.  `poll k` is
the poll result observed at iteration `k`; the value is the breaking
iteration index among the first `n + 1`, if any. -/
def pollLoopExit (poll : Nat → Option Int) (n : Nat) : Option Nat :=
  (List.range (n + 1)).find? (fun k => (poll k).isSome)

/-- No run of `t` or more consecutive copies of `c` occurs anywhere in the
string. -/
def noLongRun (c : Char) (t : Nat) (l : List Char) : Prop :=
  ¬ (List.replicate t c <:+: l)

/-- The classification-relevant content of one line: `none` when the line is
blank (skipped at line 784) or fails to parse as JSON (inner `except` at
line 945), otherwise the parsed value. -/
def eventOf (l : List Char) : Option Json :=
  if pyStrip l = [] then none else json_loads l

/-- The sequence of parsed JSON values a chunk feeds to the dispatcher. -/
def chunkEvents (D : List Char) : List Json :=
  (splitNL (pyStrip D)).filterMap eventOf

/-- Dispatch of one parsed JSON value: only objects are classified
(`isinstance(msg, dict)` at line 791). -/
def applyJson (st : SessionState) (now : Nat) (j : Json) : SessionState :=
  match j with
  | Json.obj kvs => applyEvent st now kvs
  | _ => st

/-- Whether dispatching this parsed value raises, aborting the chunk. -/
def jsonAborts : Json → Bool
  | Json.obj kvs => eventRaises kvs
  | _ => false

/-- Every whitespace character of the chunk is JSON whitespace (space, tab,
carriage return or newline) — i.e. no exotic Unicode whitespace that
`str.strip` removes but the JSON decoder rejects. -/
def tameWs (C : List Char) : Bool :=
  C.all (fun c => !pyIsSpace c || isJsonWs c)

/-- No event of the chunk raises during classification. -/
def chunkSafe (C : List Char) : Bool :=
  (chunkEvents C).all (fun j => !jsonAborts j)

/-- A list of sub-chunks is a split at line boundaries: every cut point is
adjacent to a newline (immediately after one, or immediately before one), or
one side of the cut is empty. -/
def okSplit : List (List Char) → Prop
  | [] => True
  | [_] => True
  | D :: D2 :: Ds =>
    (D = [] ∨ (D2 :: Ds).flatten = [] ∨ D.getLast? = some '\n' ∨
      ((D2 :: Ds).flatten).head? = some '\n') ∧ okSplit (D2 :: Ds)

/-- Decision procedure for `okSplit`. -/
def okSplitDec : (Ds : List (List Char)) → Decidable (okSplit Ds)
  | [] => isTrue trivial
  | [_] => isTrue trivial
  | _ :: D2 :: Ds =>
    have _hrec : Decidable (okSplit (D2 :: Ds)) := okSplitDec (D2 :: Ds)
    instDecidableAnd

instance (Ds : List (List Char)) : Decidable (okSplit Ds) := okSplitDec Ds

/-- Processing a list of stderr chunks in order, as the runner's drain loop
does (one `process_system_messages` call per chunk). -/
def processChunks (st : SessionState) (now : Nat) (Ds : List (List Char)) :
    SessionState :=
  Ds.foldl (fun s D => process_system_messages s now D) st

/-- Join two newline-split group lists across a concatenation: the last
group of the first list merges with the first group of the second. -/
def joinA : List (List Char) → List (List Char) → List (List Char)
  | [], ys => ys
  | [x], ys =>
    match ys with
    | y :: yt => (x ++ y) :: yt
    | [] => [x]
  | x :: x2 :: xs, ys => x :: joinA (x2 :: xs) ys

/-- A chunk whose single line is an engine event with a non-string message
(line 764 then raises `TypeError` on `in`), ending at a line boundary. -/
def cexRaise : List Char :=
  ("\x7b\"type\":\"engine\",\"message\":5\x7d\n").toList

/-- A tool_blurb event line that appends one immediate message. -/
def cexTB : List Char :=
  ("\x7b\"type\":\"tool_blurb\",\"content\":\"hi\",\"tool_name\":\"t\"\x7d").toList

/-- A harmless non-JSON line ending at a line boundary. -/
def cexPlain : List Char := ("x\n").toList

/-- A string always contains itself as a substring. -/
theorem strContains_self (m : List Char) : strContains m m = true := by
  unfold strContains
  rw [List.any_eq_true]
  exact ⟨m, (List.mem_tails m m).2 (List.suffix_refl m), by simp⟩

/-- Any `read_append` step leaves the buffer at no more than 1000 lines. -/
theorem read_append_length_le (buffer newLines : List (List Char)) :
    (read_append buffer newLines).length ≤ 1000 := by
  unfold read_append
  by_cases h : 1000 < (buffer ++ newLines).length
  · simp only [h, if_true, List.length_drop]
    omega
  · simp only [h, if_false]
    omega

/-- C3.  The claim says the single-request send path has a bounded maximum
wait after which the call is reported as timed out and the child killed.  The
polling loop of `send_message` (lines 521-560) has no such bound: its only
exit is `process.poll()` returning an exit code, so for a child that never
exits (`poll` constantly `none`) the loop is still running after `n`
iterations for every `n`; the `subprocess.TimeoutExpired` handler at line 686
is unreachable (no call carries a `timeout` argument) and nothing kills the
child. -/
theorem C3_loop_never_exits (n : Nat) :
    pollLoopExit (fun _ => none) n = none := by
  unfold pollLoopExit
  rw [List.find?_eq_none]
  intro k _
  simp

/-- C6, counterexample.  The claim says that when an append would push the
buffer past 1000 lines, the new length is exactly `500` plus the number of
newly appended lines.  With a full buffer of 1000 lines and one new line the
code truncates to the most recent 500 lines in total, not `500 + 1`. -/
theorem C6_counterexample :
    (read_append (List.replicate 1000 ['x']) [['y']]).length = 500 ∧
    (read_append (List.replicate 1000 ['x']) [['y']]).length ≠ 500 + 1 := by
  have h : (read_append (List.replicate 1000 ['x']) [['y']]).length = 500 := by
    unfold read_append
    simp
  exact ⟨h, by rw [h]; decide⟩

/-- C6, amended.  After any `read_append` step the buffer holds at most 1000
lines (hence any sequence of reader steps starting from the empty buffer
stays within 1000); and whenever an append would push it past 1000 lines, the
length becomes exactly 500 and the buffer is exactly the most recent 500
lines of the extended buffer. -/
theorem C6_amended (buffer newLines : List (List Char))
    (datas : List (List (List Char))) :
    (read_append buffer newLines).length ≤ 1000 ∧
    (datas.foldl read_append []).length ≤ 1000 ∧
    (1000 < buffer.length + newLines.length →
      (read_append buffer newLines).length = 500 ∧
      read_append buffer newLines =
        (buffer ++ newLines).drop (buffer.length + newLines.length - 500)) := by
  refine ⟨read_append_length_le _ _, ?_, ?_⟩
  · induction datas using List.reverseRecOn with
    | nil => simp
    | append_singleton ds d _ =>
      rw [List.foldl_append]
      exact read_append_length_le _ _
  · intro h
    have hlen : 1000 < (buffer ++ newLines).length := by
      rw [List.length_append]; omega
    constructor
    · unfold read_append
      simp only [hlen, if_true, List.length_drop]
      rw [List.length_append]
      omega
    · unfold read_append
      simp only [hlen, if_true, List.length_append]
      rw [if_pos h]

/-- C6, witness for the amended theorem at a concrete overflowing input. -/
theorem C6_amended_witness :
    (read_append (List.replicate 1000 ['x']) [['y']]).length ≤ 1000 ∧
    (1000 < (List.replicate 1000 ['x'] : List (List Char)).length + [['y']].length →
      (read_append (List.replicate 1000 ['x']) [['y']]).length = 500) :=
  ⟨(C6_amended (List.replicate 1000 ['x']) [['y']] []).1,
   fun h => ((C6_amended (List.replicate 1000 ['x']) [['y']] []).2.2 h).1⟩

/-- C10.  For an `assistant_message` diagnostic event whose `content` is a
string: when the content is blank (empty or whitespace only) the classifier
leaves the session state unchanged, and a message is appended exactly when
the content is non-blank (with the personality prefix applied when
`metadata.source` is `personality_acknowledgment`). -/
theorem C10_blank_assistant_message (st : SessionState) (now : Nat)
    (kvs mkvs : List (List Char × Json)) (c : List Char)
    (hty : dictGetD kvs ("type".toList) (Json.str []) =
      Json.str ("assistant_message".toList))
    (hmeta : dictGetD kvs ("metadata".toList) (Json.obj []) = Json.obj mkvs)
    (hcontent : dictGetD kvs ("content".toList) (Json.str []) = Json.str c) :
    (pyStrip c = [] → applyEvent st now kvs = st) ∧
    (pyStrip c ≠ [] → applyEvent st now kvs =
      { st with messages := (st.messages ++
          [{ role := ("assistant".toList),
             content := Json.str
               (if dictGetD mkvs ("source".toList) (Json.str []) =
                   Json.str ("personality_acknowledgment".toList)
                then ("🎭 ".toList) ++ c else c),
             timestamp := now,
             immediate := some true,
             source := some (dictGetD mkvs ("source".toList) (Json.str [])) }]) }) := by
  constructor <;> intro hc <;>
    simp +decide only [applyEvent, hty, hmeta, hcontent, hc, asStr] <;>
    simp +decide [hc]

/-- C10, witness: a whitespace-only content leaves the state unchanged and a
non-blank one appends. -/
theorem C10_blank_assistant_message_witness :
    applyEvent initState 7
      [(("type".toList), Json.str ("assistant_message".toList)),
       (("content".toList), Json.str ("  ".toList))] = initState :=
  (C10_blank_assistant_message initState 7
      [(("type".toList), Json.str ("assistant_message".toList)),
       (("content".toList), Json.str ("  ".toList))]
      [] ("  ".toList) (by decide) (by decide) (by decide)).1 (by decide)

/-- C5, counterexample.  The claim says an `error` event containing one of
the two diagnostic markers is processed.  In the code the polarity is
reversed: `should_ignore_message` returns `True` (drop) exactly when a marker
is present, and the classifier changes nothing for such an event. -/
theorem C5_counterexample :
    should_ignore_message ("all_json_blocks_failed".toList) ("error".toList) = true ∧
    process_system_messages initState 7
      (("\x7b\"type\":\"error\",\"message\":\"all_json_blocks_failed\"\x7d").toList) =
      initState := by
  constructor
  · decide
  · decide

/-- C5, amended.  Events of kind `error` never change the session state at
all; at the filter level the polarity is the reverse of the claim:
`should_ignore_message` drops an `error` event exactly when its message
contains one of the two markers (`all_json_blocks_failed`,
`deepseek_json_debug`), and marker-free `error` events pass the filter (but
no classifier branch handles the kind, so nothing changes either way).
Events of kinds other than `engine` and `error` always pass the filter. -/
theorem C5_amended :
    (∀ (st : SessionState) (now : Nat) (kvs : List (List Char × Json)) (m : List Char),
      dictGetD kvs ("type".toList) (Json.str []) = Json.str ("error".toList) →
      dictGetD kvs ("message".toList) (Json.str []) = Json.str m →
      applyEvent st now kvs = st) ∧
    (∀ m : List Char,
      (strContains m ("all_json_blocks_failed".toList) ||
        strContains m ("deepseek_json_debug".toList)) = true →
      should_ignore_message m ("error".toList) = true) ∧
    (∀ m : List Char,
      (strContains m ("all_json_blocks_failed".toList) ||
        strContains m ("deepseek_json_debug".toList)) = false →
      should_ignore_message m ("error".toList) = false) ∧
    (∀ t m : List Char, t ≠ ("error".toList) → t ≠ ("engine".toList) →
      should_ignore_message m t = false) := by
  refine ⟨?_, ?_, ?_, ?_⟩
  · intro st now kvs m hty hmsg
    cases hig : should_ignore_message m ("error".toList) <;>
      simp +decide only [applyEvent, hty, hmsg, asStr, hig] <;>
      simp +decide
  · intro m h
    unfold should_ignore_message
    rw [if_pos rfl]
    exact h
  · intro m h
    unfold should_ignore_message
    rw [if_pos rfl]
    exact h
  · intro t m h1 h2
    unfold should_ignore_message
    rw [if_neg h1, if_pos h2]

/-- C5, witness: concrete instances for each conjunct of the amended
theorem. -/
theorem C5_amended_witness :
    applyEvent initState 7
      [(("type".toList), Json.str ("error".toList)),
       (("message".toList), Json.str ("boom".toList))] = initState ∧
    should_ignore_message ("deepseek_json_debug".toList) ("error".toList) = true ∧
    should_ignore_message ("boom".toList) ("error".toList) = false ∧
    should_ignore_message ("anything".toList) ("tool_blurb".toList) = false :=
  ⟨C5_amended.1 initState 7 _ ("boom".toList) (by decide) (by decide),
   C5_amended.2.1 ("deepseek_json_debug".toList) (by decide),
   C5_amended.2.2.1 ("boom".toList) (by decide),
   C5_amended.2.2.2 ("tool_blurb".toList) ("anything".toList) (by decide) (by decide)⟩

/-- C2, counterexample.  The claim says an engine event containing an
important keyword is always processed, regardless of extra noise keywords in
the same message.  The code checks the noise list first, so a message
containing both `system_state_changed` (important) and
`ollama_request_enqueued` (noise) is dropped and nothing changes, even with
ready-status metadata attached; moreover a bare `system_state_changed` event
without `status == "ready"` passes the filter yet changes no status and
appends no message, so passing the filter does not imply an update either. -/
theorem C2_counterexample :
    (importantKeywords.any (fun k =>
        strContains ("system_state_changed ollama_request_enqueued".toList) k) = true ∧
      should_ignore_message ("system_state_changed ollama_request_enqueued".toList)
        ("engine".toList) = true ∧
      process_system_messages initState 7
        (("\x7b\"type\":\"engine\",\"message\":\"system_state_changed ollama_request_enqueued\",\"metadata\":\x7b\"status\":\"ready\",\"message\":\"Ani is ready\"\x7d\x7d").toList) =
        initState) ∧
    (should_ignore_message ("system_state_changed".toList) ("engine".toList) = false ∧
      process_system_messages initState 7
        (("\x7b\"type\":\"engine\",\"message\":\"system_state_changed\",\"metadata\":\x7b\"status\":\"loading\"\x7d\x7d").toList) =
        initState) := by
  exact ⟨⟨by decide, by decide, by decide⟩, ⟨by decide, by decide⟩⟩

/-- C2, amended.  An engine event whose message is exactly one of the noise
keywords changes no status and appends no message; and an engine event whose
message contains an important keyword passes the noise filter provided no
noise keyword occurs in the same message — a noise keyword anywhere in the
message causes the event to be dropped even alongside important keywords,
and an event that passes the filter need not change the state. -/
theorem C2_amended :
    (∀ m ∈ noiseKeywords, ∀ (st : SessionState) (now : Nat)
        (kvs : List (List Char × Json)),
      dictGetD kvs ("type".toList) (Json.str []) = Json.str ("engine".toList) →
      dictGetD kvs ("message".toList) (Json.str []) = Json.str m →
      applyEvent st now kvs = st) ∧
    (∀ m : List Char,
      importantKeywords.any (fun k => strContains m k) = true →
      noiseKeywords.any (fun k => strContains m k) = false →
      should_ignore_message m ("engine".toList) = false) := by
  constructor
  · intro m hm st now kvs hty hmsg
    have hig : should_ignore_message m ("engine".toList) = true := by
      unfold should_ignore_message
      rw [if_neg (by decide), if_neg (by decide)]
      rw [if_pos (List.any_eq_true.2 ⟨m, hm, strContains_self m⟩)]
    simp +decide only [applyEvent, hty, hmsg, asStr, Option.getD_some,
      Option.isNone_some, true_and, and_false, false_and, and_true, if_false,
      if_true, ite_true, ite_false, hig]
  · intro m himp hno
    unfold should_ignore_message
    rw [if_neg (by decide), if_neg (by decide)]
    rw [if_neg (by simp [hno]), if_pos himp]

/-- C2, witness: a concrete exact-noise engine event leaves the state
unchanged, and a concrete important-only message passes the filter. -/
theorem C2_amended_witness :
    applyEvent initState 7
      [(("type".toList), Json.str ("engine".toList)),
       (("message".toList), Json.str ("ollama_request_enqueued".toList))] = initState ∧
    should_ignore_message ("tools_agent_start".toList) ("engine".toList) = false :=
  ⟨C2_amended.1 ("ollama_request_enqueued".toList) (by decide) initState 7
      [(("type".toList), Json.str ("engine".toList)),
       (("message".toList), Json.str ("ollama_request_enqueued".toList))]
      (by decide) (by decide),
   C2_amended.2 ("tools_agent_start".toList) (by decide) (by decide)⟩

/-- C9, counterexample.  The claim says a non-empty `activity` field sets the
activity indicator to that label.  A whitespace-only activity string is
non-empty, yet the code tests `activity.strip()` and therefore clears the
indicator and its start time instead of setting the label. -/
theorem C9_counterexample :
    (" ".toList) ≠ [] ∧
    (applyEvent
      { initState with
        current_tool_activity := ("old".toList),
        tool_start_time := some 3 }
      7
      [(("type".toList), Json.str ("tool_activity".toList)),
       (("activity".toList), Json.str (" ".toList))]).current_tool_activity = [] ∧
    (applyEvent
      { initState with
        current_tool_activity := ("old".toList),
        tool_start_time := some 3 }
      7
      [(("type".toList), Json.str ("tool_activity".toList)),
       (("activity".toList), Json.str (" ".toList))]).tool_start_time = none := by
  exact ⟨by decide, by decide, by decide⟩

/-- C9, amended.  For a `tool_activity` event whose `activity` field is a
string: a non-blank activity sets the indicator to that label with its start
time set to now (and resets the progress dots), a blank activity (empty or
whitespace-only) clears both the label and the start time, and in both cases
the status line is recomputed by `update_status`. -/
theorem C9_amended (st : SessionState) (now : Nat)
    (kvs : List (List Char × Json)) (a : List Char)
    (hty : dictGetD kvs ("type".toList) (Json.str []) =
      Json.str ("tool_activity".toList))
    (hact : dictGetD kvs ("activity".toList) (Json.str []) = Json.str a) :
    (pyStrip a ≠ [] → applyEvent st now kvs =
      { st with
        current_tool_activity := a,
        tool_start_time := some now,
        tool_progress_dots := 0,
        status := update_status_text
          { st with
            current_tool_activity := a,
            tool_start_time := some now,
            tool_progress_dots := 0 } now }) ∧
    (pyStrip a = [] → applyEvent st now kvs =
      { st with
        current_tool_activity := [],
        tool_start_time := none,
        status := update_status_text
          { st with
            current_tool_activity := [],
            tool_start_time := none } now }) := by
  constructor <;> intro hc <;>
    simp +decide only [applyEvent, hty, hact, asStr, Option.getD_some,
      Option.isNone_some, true_and, and_false, false_and, and_true, if_false,
      if_true, ite_true, ite_false, hc, ne_eq, not_true, not_false_iff]

/-- C9, witness: a concrete stream setting then clearing an activity leaves
the indicator cleared, with the status recomputed (and, per the end-to-end
check, no longer showing the old label). -/
theorem C9_amended_witness :
    applyEvent initState 7
      [(("type".toList), Json.str ("tool_activity".toList)),
       (("activity".toList), Json.str ("reading file".toList))] =
      { initState with
        current_tool_activity := ("reading file".toList),
        tool_start_time := some 7,
        tool_progress_dots := 0,
        status := update_status_text
          { initState with
            current_tool_activity := ("reading file".toList),
            tool_start_time := some 7,
            tool_progress_dots := 0 } 7 } ∧
    strContains
      (process_system_messages initState 7
        ((("\x7b\"type\":\"tool_activity\",\"activity\":\"reading file\"\x7d\n\x7b\"type\":\"tool_activity\",\"activity\":\"\"\x7d").toList))).status
      ("reading file".toList) = false :=
  ⟨(C9_amended initState 7
      [(("type".toList), Json.str ("tool_activity".toList)),
       (("activity".toList), Json.str ("reading file".toList))]
      ("reading file".toList) (by decide) (by decide)).1 (by decide),
   by decide⟩

/-- C8, counterexample.  The claim says that on parse failure the extractor
returns the raw trimmed primary text verbatim.  For whitespace-only primary
output the trimmed text is empty and the code substitutes the placeholder
`No response` instead of returning the empty text. -/
theorem C8_counterexample :
    pyStrip ("  ".toList) = [] ∧
    json_loads (chosenSpan (pyStrip ("  ".toList))) = none ∧
    response_message ("  ".toList) = PyOutcome.ok (Json.str ("No response".toList)) ∧
    ("No response".toList) ≠ pyStrip ("  ".toList) := by
  exact ⟨by decide, by decide, by decide, by decide⟩

/-- C8, amended.  Whenever JSON parsing of the chosen span fails, the
zero-exit response path appends a plain-text assistant message (it never
raises on this path): the raw trimmed primary text verbatim when that text is
non-empty, and the placeholder `No response` when it is empty. -/
theorem C8_amended (full_stdout : List Char)
    (h : json_loads (chosenSpan (pyStrip full_stdout)) = none) :
    response_message full_stdout =
      PyOutcome.ok (Json.str
        (if pyStrip full_stdout = [] then ("No response".toList)
         else pyStrip full_stdout)) := by
  simp only [response_message, h]

/-- C8, witness: concrete non-JSON primary output degrades to itself as plain
text. -/
theorem C8_amended_witness :
    response_message ("hello".toList) = PyOutcome.ok (Json.str ("hello".toList)) := by
  rw [C8_amended ("hello".toList) (by decide)]
  decide

/-- C1, counterexample.  The claim quantifies over every text containing a
balanced-brace `{content, metadata}` span and says the last such span's
content is returned.  A stray unbalanced `}` before the spans drives the
scanner's depth negative, so it collects no candidates, and the fallback path
returns the content of the FIRST object: here the text ends with a balanced
span whose content is `second`, yet the extractor returns `first`. -/
theorem C1_counterexample :
    strContains
      (pyStrip (("\x7d\x7b\"content\":\"first\",\"metadata\":\x7b\x7d\x7d\x7b\"content\":\"second\",\"metadata\":\x7b\x7d\x7d").toList))
      (("\x7b\"content\":\"second\",\"metadata\":\x7b\x7d\x7d").toList) = true ∧
    isCandidate (("\x7b\"content\":\"second\",\"metadata\":\x7b\x7d\x7d").toList) = true ∧
    json_loads (("\x7b\"content\":\"second\",\"metadata\":\x7b\x7d\x7d").toList) =
      some (Json.obj [(("content".toList), Json.str ("second".toList)),
                      (("metadata".toList), Json.obj [])]) ∧
    response_message
      (("\x7d\x7b\"content\":\"first\",\"metadata\":\x7b\x7d\x7d\x7b\"content\":\"second\",\"metadata\":\x7b\x7d\x7d").toList) =
      PyOutcome.ok (Json.str ("first".toList)) ∧
    Json.str ("first".toList) ≠ Json.str ("second".toList) := by
  exact ⟨by decide, by decide, by decide, by decide, by decide⟩

/-- C1, amended.  For every primary text on which the balanced-brace
candidate scan (depth counter starting at 0 from the start of the trimmed
text) collects at least one `{content, metadata}` candidate, the extractor
parses the LAST collected candidate and returns its `content` (after
formatting cleanup) whenever that content is a string.  Texts whose earlier
unbalanced braces desynchronise the scanner may instead be served by the
fallback path, which can return an earlier object's content. -/
theorem C1_amended (full_stdout c t : List Char) (kvs : List (List Char × Json))
    (hlast : (jsonCandidates (pyStrip full_stdout)).getLast? = some c)
    (hparse : json_loads c = some (Json.obj kvs))
    (hcontent : dictGetD kvs ("content".toList) (Json.str ("No response".toList)) =
      Json.str t) :
    response_message full_stdout =
      PyOutcome.ok (Json.str (clean_response_formatting t)) := by
  simp only [response_message, chosenSpan, hlast, hparse, hcontent]

/-- C1, witness: a text with two syntactically valid `{content, metadata}`
objects yields the second (later) one's content. -/
theorem C1_amended_witness :
    response_message
      (("\x7b\"content\":\"first\",\"metadata\":\x7b\x7d\x7d \x7b\"content\":\"second\",\"metadata\":\x7b\x7d\x7d").toList) =
      PyOutcome.ok (Json.str ("second".toList)) := by
  rw [C1_amended
    (("\x7b\"content\":\"first\",\"metadata\":\x7b\x7d\x7d \x7b\"content\":\"second\",\"metadata\":\x7b\x7d\x7d").toList)
    (("\x7b\"content\":\"second\",\"metadata\":\x7b\x7d\x7d").toList)
    ("second".toList)
    [(("content".toList), Json.str ("second".toList)),
     (("metadata".toList), Json.obj [])]
    (by decide) (by decide) (by decide)]
  decide

/-- The run-length encoding of a non-empty string is non-empty. -/
theorem runs_ne_nil (c : Char) (cs : List Char) : runs (c :: cs) ≠ [] := by
  unfold runs
  cases h : runs cs with
  | nil => simp
  | cons p rs =>
    cases p with
    | mk d n => by_cases hc : c = d <;> simp [hc]

/-- Decoding the run-length encoding recovers the string. -/
theorem decodeRuns_runs (l : List Char) : decodeRuns (runs l) = l := by
  induction l with
  | nil => rfl
  | cons c cs ih =>
    unfold runs
    cases h : runs cs with
    | nil =>
      have hnil : cs = [] := by
        cases cs with
        | nil => rfl
        | cons d ds => exact absurd h (runs_ne_nil d ds)
      subst hnil
      simp [decodeRuns]
    | cons p rs =>
      cases p with
      | mk d n =>
        rw [h] at ih
        by_cases hc : c = d
        · subst hc
          simp only [if_pos rfl, decodeRuns, List.replicate_succ] at ih ⊢
          simp only [List.cons_append, List.cons.injEq, true_and]
          simpa using ih
        · simp only [if_neg hc, decodeRuns, List.replicate_succ]
          simpa using ih

/-- The head run of `c :: l` has character `c` and a positive count. -/
theorem runs_cons_head (c : Char) (l : List Char) :
    ∃ k rs, runs (c :: l) = (c, k) :: rs ∧ 1 ≤ k := by
  unfold runs
  cases h : runs l with
  | nil => exact ⟨1, [], rfl, le_refl 1⟩
  | cons p rs =>
    cases p with
    | mk d n =>
      by_cases hc : c = d
      · subst hc
        exact ⟨n + 1, rs, by simp, by omega⟩
      · exact ⟨1, (d, n) :: rs, by simp [hc], le_refl 1⟩

/-- Every run count is positive. -/
theorem runs_count_pos (l : List Char) : ∀ p ∈ runs l, 1 ≤ p.2 := by
  induction l with
  | nil => simp [runs]
  | cons c cs ih =>
    unfold runs
    cases h : runs cs with
    | nil => simp
    | cons p rs =>
      rw [h] at ih
      cases p with
      | mk d n =>
        by_cases hc : c = d
        · subst hc
          simp only [if_pos rfl]
          intro q hq
          rcases List.mem_cons.1 hq with hq | hq
          · subst hq; simp
          · exact ih q (List.mem_cons_of_mem _ hq)
        · simp only [if_neg hc]
          intro q hq
          rcases List.mem_cons.1 hq with hq | hq
          · subst hq; simp
          · exact ih q hq

/-- Adjacent runs have distinct characters. -/
theorem runs_chain (l : List Char) :
    (runs l).Chain' (fun p q => p.1 ≠ q.1) := by
  induction l with
  | nil => simp [runs]
  | cons c cs ih =>
    unfold runs
    cases h : runs cs with
    | nil => simp
    | cons p rs =>
      rw [h] at ih
      cases p with
      | mk d n =>
        by_cases hc : c = d
        · subst hc
          simp only [if_pos rfl, if_true]
          rw [List.chain'_cons'] at ih
          rw [List.chain'_cons']
          exact ⟨fun b hb => ih.1 b hb, ih.2⟩
        · simp only [if_neg hc]
          exact List.Chain'.cons hc ih

/-- Every character of a decoded run list is the character of one of its
runs. -/
theorem mem_decodeRuns (m : List (Char × Nat)) (x : Char) :
    x ∈ decodeRuns m → ∃ p ∈ m, x = p.1 := by
  induction m with
  | nil => simp [decodeRuns]
  | cons p rest ih =>
    cases p with
    | mk c n =>
      intro hx
      simp only [decodeRuns, List.mem_append] at hx
      rcases hx with hx | hx
      · exact ⟨(c, n), List.mem_cons_self _ _, (List.eq_of_mem_replicate hx)⟩
      · rcases ih hx with ⟨q, hq, hxq⟩
        exact ⟨q, List.mem_cons_of_mem _ hq, hxq⟩

/-- Prepending a positive run of `c` to a string not starting with `c` adds
one run to the encoding. -/
theorem runs_replicate_append (c : Char) (n : Nat) (L : List Char)
    (hn : 1 ≤ n) (hL : ∀ d, L.head? = some d → d ≠ c) :
    runs (List.replicate n c ++ L) = (c, n) :: runs L := by
  induction n with
  | zero => omega
  | succ n ih =>
    cases Nat.eq_zero_or_pos n with
    | inl h0 =>
      subst h0
      simp only [List.replicate_succ, List.replicate_zero, List.nil_append,
        List.cons_append]
      cases L with
      | nil => simp [runs]
      | cons d ds =>
        obtain ⟨k, rs, hr, _⟩ := runs_cons_head d ds
        have hdc : d ≠ c := hL d rfl
        conv_lhs => rw [runs]
        rw [hr]
        dsimp only
        rw [if_neg (fun hcd => hdc hcd.symm), ← hr]
    | inr hpos =>
      have hsplit : List.replicate (n + 1) c ++ L = c :: (List.replicate n c ++ L) := by
        simp [List.replicate_succ]
      rw [hsplit]
      conv_lhs => rw [runs]
      rw [ih hpos]
      dsimp only
      rw [if_pos rfl]

/-- The first character of a decoded non-empty run list (with positive head
count) is the head run's character. -/
theorem head?_decodeRuns (c : Char) (n : Nat) (m : List (Char × Nat)) (hn : 1 ≤ n) :
    (decodeRuns ((c, n) :: m)).head? = some c := by
  cases n with
  | zero => omega
  | succ k => simp [decodeRuns, List.replicate_succ]

/-- Encoding a decoded well-formed run list recovers it. -/
theorem runs_decodeRuns (m : List (Char × Nat))
    (hpos : ∀ p ∈ m, 1 ≤ p.2)
    (hchain : m.Chain' (fun p q => p.1 ≠ q.1)) :
    runs (decodeRuns m) = m := by
  induction m with
  | nil => rfl
  | cons p rest ih =>
    cases p with
    | mk c n =>
      have hn : 1 ≤ n := hpos (c, n) (List.mem_cons_self _ _)
      have hrest_pos : ∀ q ∈ rest, 1 ≤ q.2 :=
        fun q hq => hpos q (List.mem_cons_of_mem _ hq)
      rw [List.chain'_cons'] at hchain
      have hhead : ∀ d, (decodeRuns rest).head? = some d → d ≠ c := by
        intro d hd
        cases rest with
        | nil => simp [decodeRuns] at hd
        | cons q rest2 =>
          cases q with
          | mk d2 k =>
            have hk : 1 ≤ k := hrest_pos (d2, k) (List.mem_cons_self _ _)
            rw [head?_decodeRuns d2 k rest2 hk] at hd
            injection hd with hd
            subst hd
            intro hdc
            exact (hchain.1 (d2, k) rfl) hdc.symm
      simp only [decodeRuns]
      rw [runs_replicate_append c n (decodeRuns rest) hn hhead,
        ih hrest_pos hchain.2]

/-- The run character is unchanged by the squeeze map. -/
theorem squeeze_map_fst (c : Char) (t : Nat) (p : Char × Nat) :
    (if p.1 = c ∧ t ≤ p.2 then (c, t - 1) else p).1 = p.1 := by
  by_cases h : p.1 = c ∧ t ≤ p.2
  · rw [if_pos h]
    exact h.1.symm
  · rw [if_neg h]

/-- The run-length encoding of a squeezed string is the squeeze map applied
to the original encoding. -/
theorem runs_squeezeRun (c : Char) (t : Nat) (l : List Char) (ht : 2 ≤ t) :
    runs (squeezeRun c t l) =
      (runs l).map (fun p => if p.1 = c ∧ t ≤ p.2 then (c, t - 1) else p) := by
  unfold squeezeRun
  apply runs_decodeRuns
  · intro p hp
    rcases List.mem_map.1 hp with ⟨q, hq, rfl⟩
    by_cases h : q.1 = c ∧ t ≤ q.2
    · simp only [if_pos h]
      omega
    · simp only [if_neg h]
      exact runs_count_pos l q hq
  · rw [List.chain'_map]
    apply (runs_chain l).imp
    intro a b hab
    rw [squeeze_map_fst, squeeze_map_fst]
    exact hab

/-- Each run of a string occurs in it as a replicate infix. -/
theorem replicate_infix_of_mem_runs (l : List Char) (p : Char × Nat)
    (hp : p ∈ runs l) : List.replicate p.2 p.1 <:+: l := by
  conv_rhs => rw [← decodeRuns_runs l]
  generalize runs l = m at hp
  clear l
  induction m with
  | nil => simp at hp
  | cons q rest ih =>
    rcases List.mem_cons.1 hp with h | h
    · subst h
      cases p with
      | mk c n =>
        simp only [decodeRuns]
        exact (List.prefix_append _ _).isInfix
    · cases q with
      | mk c n =>
        simp only [decodeRuns]
        exact (ih h).trans (List.suffix_append _ _).isInfix

/-- A replicate prefix forces a head run at least that long. -/
theorem prefix_replicate_runs_head (c : Char) (t : Nat) (l : List Char)
    (ht : 1 ≤ t) (h : List.replicate t c <+: l) :
    ∃ k rs, runs l = (c, k) :: rs ∧ t ≤ k := by
  induction t generalizing l with
  | zero => omega
  | succ t ih =>
    rw [List.replicate_succ] at h
    rcases h with ⟨u, hu⟩
    cases l with
    | nil => simp at hu
    | cons a l2 =>
      rw [List.cons_append] at hu
      injection hu with h1 h2
      subst h1
      cases Nat.eq_zero_or_pos t with
      | inl h0 =>
        subst h0
        obtain ⟨k, rs, hr, hk⟩ := runs_cons_head c l2
        exact ⟨k, rs, hr, by omega⟩
      | inr hpos =>
        obtain ⟨k, rs, hr, hk⟩ := ih hpos (l := l2) ⟨u, h2⟩
        refine ⟨k + 1, rs, ?_, by omega⟩
        conv_lhs => rw [runs]
        rw [hr]
        dsimp only
        rw [if_pos rfl]

/-- A replicate infix of positive length forces a correspondingly long run
somewhere in the encoding. -/
theorem infix_replicate_runs (c : Char) (t : Nat) (l : List Char)
    (ht : 1 ≤ t) (h : List.replicate t c <:+: l) :
    ∃ p ∈ runs l, p.1 = c ∧ t ≤ p.2 := by
  induction l with
  | nil =>
    rw [List.infix_nil] at h
    have : t = 0 := by simpa using congrArg List.length h
    omega
  | cons a l2 ih =>
    rcases List.infix_cons_iff.1 h with hpre | hinf
    · obtain ⟨k, rs, hr, hk⟩ := prefix_replicate_runs_head c t (a :: l2) ht hpre
      exact ⟨(c, k), by rw [hr]; exact List.mem_cons_self _ _, rfl, hk⟩
    · obtain ⟨p, hp, hpc, hpt⟩ := ih hinf
      cases hl2 : runs l2 with
      | nil => rw [hl2] at hp; simp at hp
      | cons q rs =>
        rw [hl2] at hp
        cases q with
        | mk d n =>
          by_cases had : a = d
          · subst had
            have hruns : runs (a :: l2) = (a, n + 1) :: rs := by
              conv_lhs => rw [runs]
              rw [hl2]
              dsimp only
              rw [if_pos rfl]
            rcases List.mem_cons.1 hp with hph | hpt2
            · subst hph
              exact ⟨(a, n + 1), by rw [hruns]; exact List.mem_cons_self _ _,
                hpc, by simp at hpt ⊢; omega⟩
            · exact ⟨p, by rw [hruns]; exact List.mem_cons_of_mem _ hpt2, hpc, hpt⟩
          · have hruns : runs (a :: l2) = (a, 1) :: (d, n) :: rs := by
              conv_lhs => rw [runs]
              rw [hl2]
              dsimp only
              rw [if_neg had]
            refine ⟨p, ?_, hpc, hpt⟩
            rw [hruns]
            exact List.mem_cons_of_mem _ hp

/-- A shorter replicate is a prefix of a longer one. -/
theorem replicate_prefix_replicate (c : Char) {t n : Nat} (h : t ≤ n) :
    List.replicate t c <+: List.replicate n c := by
  refine ⟨List.replicate (n - t) c, ?_⟩
  rw [← List.replicate_add]
  congr 1
  omega

/-- Squeezing eliminates all runs of `c` of length at least `t`. -/
theorem noLongRun_squeezeRun_self (c : Char) (t : Nat) (l : List Char)
    (ht : 2 ≤ t) : noLongRun c t (squeezeRun c t l) := by
  intro hinf
  obtain ⟨p, hp, hpc, hpt⟩ := infix_replicate_runs c t _ (by omega) hinf
  rw [runs_squeezeRun c t l ht] at hp
  rcases List.mem_map.1 hp with ⟨q, hq, hgq⟩
  by_cases h : q.1 = c ∧ t ≤ q.2
  · rw [if_pos h] at hgq
    rw [← hgq] at hpt
    simp at hpt
    omega
  · rw [if_neg h] at hgq
    rw [hgq] at h
    exact h ⟨hpc, hpt⟩

/-- A string with no long `c` run is a fixpoint of the squeeze. -/
theorem squeezeRun_eq_self (c : Char) (t : Nat) (l : List Char)
    (h : noLongRun c t l) : squeezeRun c t l = l := by
  unfold squeezeRun
  have hmap : (runs l).map
      (fun p => if p.1 = c ∧ t ≤ p.2 then (c, t - 1) else p) = runs l := by
    rw [List.map_congr_left (g := id), List.map_id]
    intro p hp
    simp only [id]
    rw [if_neg]
    rintro ⟨hpc, hpt⟩
    apply h
    have hi := replicate_infix_of_mem_runs l p hp
    rw [hpc] at hi
    exact ((replicate_prefix_replicate c hpt).isInfix).trans hi
  rw [hmap, decodeRuns_runs]

/-- Squeezing runs of a different character preserves the absence of long
`c` runs. -/
theorem noLongRun_squeezeRun_other (c c' : Char) (t t' : Nat) (l : List Char)
    (hne : c ≠ c') (ht : 1 ≤ t) (ht' : 2 ≤ t') (h : noLongRun c t l) :
    noLongRun c t (squeezeRun c' t' l) := by
  intro hinf
  obtain ⟨p, hp, hpc, hpt⟩ := infix_replicate_runs c t _ ht hinf
  rw [runs_squeezeRun c' t' l ht'] at hp
  rcases List.mem_map.1 hp with ⟨q, hq, hgq⟩
  have hqp : q = p := by
    by_cases hcond : q.1 = c' ∧ t' ≤ q.2
    · rw [if_pos hcond] at hgq
      exfalso
      apply hne
      rw [← hpc, ← hgq]
    · rwa [if_neg hcond] at hgq
  subst hqp
  apply h
  have hi := replicate_infix_of_mem_runs l q hq
  rw [hpc] at hi
  exact ((replicate_prefix_replicate c hpt).isInfix).trans hi

/-- Absence of long runs is inherited by infixes. -/
theorem noLongRun_infix {c t} {l l2 : List Char} (h : noLongRun c t l)
    (hll : l2 <:+: l) : noLongRun c t l2 :=
  fun hinf => h (hinf.trans hll)

/-- Squeezing introduces no new characters. -/
theorem mem_squeezeRun {x c : Char} {t : Nat} {l : List Char}
    (hx : x ∈ squeezeRun c t l) : x ∈ l := by
  obtain ⟨p, hp, hxp⟩ := mem_decodeRuns _ x hx
  rcases List.mem_map.1 hp with ⟨q, hq, hgq⟩
  have hxq : x = q.1 := by
    rw [hxp, ← hgq, squeeze_map_fst]
  have hqpos := runs_count_pos l q hq
  have hi := replicate_infix_of_mem_runs l q hq
  apply hi.subset
  rw [hxq]
  exact List.mem_replicate.2 ⟨by omega, rfl⟩

/-- Removing a trailing run is taking a prefix. -/
theorem dropTrailing_pref (p : Char → Bool) (l : List Char) :
    dropTrailing p l <+: l := by
  unfold dropTrailing
  conv_rhs => rw [← List.reverse_reverse l]
  exact List.reverse_prefix.2 (List.dropWhile_suffix p)

/-- A stripped string occurs inside the original. -/
theorem pyStrip_sub (l : List Char) : pyStrip l <:+: l := by
  unfold pyStrip
  exact ((dropTrailing_pref _ _).isInfix).trans
    ((List.dropWhile_suffix _).isInfix)

/-- Dropping a satisfied prefix twice is the same as once. -/
theorem dropWhile_dropWhile (p : Char → Bool) (x : List Char) :
    (x.dropWhile p).dropWhile p = x.dropWhile p := by
  cases h : x.dropWhile p with
  | nil => rfl
  | cons a as =>
    have hpa := List.head?_dropWhile_not p x
    rw [h] at hpa
    simp only [List.head?_cons] at hpa
    exact List.dropWhile_cons_of_neg (by simp [hpa])

/-- Python `strip` is idempotent. -/
theorem pyStrip_idem (l : List Char) : pyStrip (pyStrip l) = pyStrip l := by
  unfold pyStrip
  set A := l.dropWhile pyIsSpace with hA
  have h1 : (dropTrailing pyIsSpace A).dropWhile pyIsSpace =
      dropTrailing pyIsSpace A := by
    cases hB : dropTrailing pyIsSpace A with
    | nil => rfl
    | cons b bs =>
      have hpre : dropTrailing pyIsSpace A <+: A := dropTrailing_pref _ _
      rw [hB] at hpre
      rcases hpre with ⟨u, hu⟩
      have hpb := List.head?_dropWhile_not pyIsSpace l
      rw [← hA, ← hu] at hpb
      simp only [List.cons_append, List.head?_cons] at hpb
      exact List.dropWhile_cons_of_neg (by simp [hpb])
  rw [h1]
  unfold dropTrailing
  rw [List.reverse_reverse, dropWhile_dropWhile]

/-- `str.replace` with a pattern whose first character does not occur in the
input is the identity. -/
theorem pyReplaceF_not_mem (p : Char) (ps rep : List Char) (fuel : Nat)
    (l : List Char) (h : p ∉ l) : pyReplaceF p ps rep fuel l = l := by
  induction fuel generalizing l with
  | zero => cases l <;> rfl
  | succ fuel ih =>
    cases l with
    | nil => rfl
    | cons c cs =>
      have hne : ¬ ((p :: ps).isPrefixOf (c :: cs) = true) := by
        intro habs
        rcases List.isPrefixOf_iff_prefix.1 habs with ⟨u, hu⟩
        rw [List.cons_append] at hu
        injection hu with h1 _
        exact h (h1 ▸ List.mem_cons_self _ _)
      simp only [pyReplaceF]
      rw [if_neg hne, ih cs (fun hm => h (List.mem_cons_of_mem _ hm))]

/-- Wrapper form of the preceding no-op lemma. -/
theorem pyReplace_not_mem (p : Char) (ps rep l : List Char) (h : p ∉ l) :
    pyReplace p ps rep l = l :=
  pyReplaceF_not_mem p ps rep l.length l h

/-- Removal of a single character (`replace(c, '')`): the result's characters
come from the input and never equal the removed character. -/
theorem mem_pyReplaceF_single (p : Char) (fuel : Nat) (l : List Char)
    (hfuel : l.length ≤ fuel) (x : Char) (hx : x ∈ pyReplaceF p [] [] fuel l) :
    x ∈ l ∧ x ≠ p := by
  induction fuel generalizing l with
  | zero =>
    have hl : l = [] := by
      cases l with
      | nil => rfl
      | cons => simp at hfuel
    subst hl
    simp [pyReplaceF] at hx
  | succ fuel ih =>
    cases l with
    | nil => simp [pyReplaceF] at hx
    | cons c cs =>
      simp only [pyReplaceF] at hx
      by_cases hpc : ([p]).isPrefixOf (c :: cs) = true
      · rw [if_pos hpc] at hx
        simp only [List.nil_append, List.length_nil, List.drop_zero] at hx
        have hlen : cs.length ≤ fuel := by
          simp only [List.length_cons] at hfuel
          omega
        obtain ⟨hmem, hne⟩ := ih cs hlen hx
        exact ⟨List.mem_cons_of_mem _ hmem, hne⟩
      · rw [if_neg hpc] at hx
        rcases List.mem_cons.1 hx with hxc | hxc
        · subst hxc
          refine ⟨List.mem_cons_self _ _, ?_⟩
          intro hxp
          exact hpc (hxp ▸ List.isPrefixOf_iff_prefix.2 ⟨cs, rfl⟩)
        · have hlen : cs.length ≤ fuel := by
            simp only [List.length_cons] at hfuel
            omega
          obtain ⟨hmem, hne⟩ := ih cs hlen hxc
          exact ⟨List.mem_cons_of_mem _ hmem, hne⟩

/-- Wrapper form of the single-character removal lemma. -/
theorem mem_pyReplace_single {p x : Char} {l : List Char}
    (hx : x ∈ pyReplace p [] [] l) : x ∈ l ∧ x ≠ p :=
  mem_pyReplaceF_single p l.length l (le_refl _) x hx

/-- A string already free of emphasis characters and backslashes, with no
long newline or space runs, and equal to its own strip, is a fixpoint of
`clean_response_formatting`. -/
theorem clean_response_formatting_fixpoint (y : List Char)
    (hstar : '*' ∉ y) (hund : '_' ∉ y) (hbs : bslashC ∉ y)
    (hnl : noLongRun '\n' 3 y) (hsp : noLongRun ' ' 2 y)
    (hstrip : pyStrip y = y) :
    clean_response_formatting y = y := by
  by_cases hy : y = []
  · simp [hy, clean_response_formatting]
  · unfold clean_response_formatting
    rw [if_neg hy]
    dsimp only
    rw [pyReplace_not_mem _ _ _ _ hstar]
    rw [pyReplace_not_mem _ _ _ _ hund]
    rw [pyReplace_not_mem _ _ _ _ hstar]
    rw [pyReplace_not_mem _ _ _ _ hund]
    rw [squeezeRun_eq_self _ _ _ hnl]
    rw [squeezeRun_eq_self _ _ _ hsp]
    rw [pyReplace_not_mem _ _ _ _ hbs]
    rw [pyReplace_not_mem _ _ _ _ hbs]
    exact hstrip

/-- For backslash-free input, one application of
`clean_response_formatting` yields a string satisfying all fixpoint
conditions. -/
theorem clean_response_formatting_props (x : List Char) (hx : bslashC ∉ x) :
    '*' ∉ clean_response_formatting x ∧
    '_' ∉ clean_response_formatting x ∧
    bslashC ∉ clean_response_formatting x ∧
    noLongRun '\n' 3 (clean_response_formatting x) ∧
    noLongRun ' ' 2 (clean_response_formatting x) ∧
    pyStrip (clean_response_formatting x) = clean_response_formatting x := by
  by_cases hxe : x = []
  · subst hxe
    have hcl : clean_response_formatting [] = [] := rfl
    rw [hcl]
    refine ⟨by simp, by simp, by simp, ?_, ?_, rfl⟩
    · intro habs
      rw [List.infix_nil] at habs
      simp at habs
    · intro habs
      rw [List.infix_nil] at habs
      simp at habs
  · have hbody : clean_response_formatting x =
        pyStrip (squeezeRun ' ' 2 (squeezeRun '\n' 3
          (pyReplace '_' [] [] (pyReplace '*' [] [] x)))) := by
      unfold clean_response_formatting
      rw [if_neg hxe]
      dsimp only
      have h1 : ∀ z ∈ pyReplace '*' [] [] x, z ∈ x ∧ z ≠ '*' :=
        fun z hz => mem_pyReplace_single hz
      have h2 : ∀ z ∈ pyReplace '_' [] [] (pyReplace '*' [] [] x),
          z ∈ pyReplace '*' [] [] x ∧ z ≠ '_' :=
        fun z hz => mem_pyReplace_single hz
      rw [pyReplace_not_mem '*' ['*'] []
        _ (fun hm => ((h2 '*' hm).1 |> h1 '*' |>.2) rfl)]
      rw [pyReplace_not_mem '_' ['_'] [] _ (fun hm => (h2 '_' hm).2 rfl)]
      have hbs6 : bslashC ∉ squeezeRun ' ' 2 (squeezeRun '\n' 3
          (pyReplace '_' [] [] (pyReplace '*' [] [] x))) := by
        intro hm
        exact hx (h1 bslashC (h2 bslashC (mem_squeezeRun (mem_squeezeRun hm))).1).1
      rw [pyReplace_not_mem bslashC [quoteC] [quoteC] _ hbs6]
      rw [pyReplace_not_mem bslashC ['n'] ['\n'] _ hbs6]
    have h1 : ∀ z ∈ pyReplace '*' [] [] x, z ∈ x ∧ z ≠ '*' :=
      fun z hz => mem_pyReplace_single hz
    have h2 : ∀ z ∈ pyReplace '_' [] [] (pyReplace '*' [] [] x),
        z ∈ pyReplace '*' [] [] x ∧ z ≠ '_' :=
      fun z hz => mem_pyReplace_single hz
    have hmem : ∀ z ∈ clean_response_formatting x,
        z ∈ pyReplace '_' [] [] (pyReplace '*' [] [] x) := by
      intro z hz
      rw [hbody] at hz
      exact mem_squeezeRun (mem_squeezeRun ((pyStrip_sub _).subset hz))
    refine ⟨?_, ?_, ?_, ?_, ?_, ?_⟩
    · intro hm
      exact ((h2 '*' (hmem '*' hm)).1 |> h1 '*' |>.2) rfl
    · intro hm
      exact (h2 '_' (hmem '_' hm)).2 rfl
    · intro hm
      exact hx (h1 bslashC (h2 bslashC (hmem bslashC hm)).1).1
    · rw [hbody]
      exact noLongRun_infix
        (noLongRun_squeezeRun_other '\n' ' ' 3 2 _ (by decide) (by omega) (by omega)
          (noLongRun_squeezeRun_self '\n' 3 _ (by omega)))
        (pyStrip_sub _)
    · rw [hbody]
      exact noLongRun_infix (noLongRun_squeezeRun_self ' ' 2 _ (by omega))
        (pyStrip_sub _)
    · rw [hbody]
      exact pyStrip_idem _

/-- C4, counterexample.  `clean_response_formatting` is not idempotent: the
`\n`-unescape runs after the newline-collapse, so `a\n\n\nb` (written with
literal backslash-n escapes) turns into three real newlines that only a
second application collapses; and replacing `\"` can leave a new `\"` (from
`\\"`) that only a second application rewrites. -/
theorem C4_counterexample :
    clean_response_formatting (clean_response_formatting ("a\\n\\n\\nb".toList)) ≠
      clean_response_formatting ("a\\n\\n\\nb".toList) ∧
    clean_response_formatting (clean_response_formatting ("\\\\\"".toList)) ≠
      clean_response_formatting ("\\\\\"".toList) := by
  exact ⟨by decide, by decide⟩

/-- C4, amended.  `clean_response_formatting` is idempotent on every input
containing no backslash character (the escape-rewriting steps, which run
after the whitespace collapsing, are the only source of non-idempotence). -/
theorem C4_amended (x : List Char) (hx : bslashC ∉ x) :
    clean_response_formatting (clean_response_formatting x) =
      clean_response_formatting x := by
  obtain ⟨h1, h2, h3, h4, h5, h6⟩ := clean_response_formatting_props x hx
  exact clean_response_formatting_fixpoint _ h1 h2 h3 h4 h5 h6

/-- C4, witness: a concrete backslash-free string with markdown emphasis,
double spaces and a long newline run is cleaned the same way twice. -/
theorem C4_amended_witness :
    clean_response_formatting
        (clean_response_formatting ("a  *b*\n\n\n\nc".toList)) =
      clean_response_formatting ("a  *b*\n\n\n\nc".toList) :=
  C4_amended ("a  *b*\n\n\n\nc".toList) (by decide)

/-- Unfolding equation for `splitNL` on a cons. -/
theorem splitNL_cons (c : Char) (cs : List Char) :
    splitNL (c :: cs) =
      if c = '\n' then [] :: splitNL cs
      else
        match splitNL cs with
        | g :: gs => (c :: g) :: gs
        | [] => [[c]] := by
  simp only [splitNL]

/-- Unfolding equation for `joinA` on a two-element-or-more left list. -/
theorem joinA_cons_cons (x x2 : List Char) (xs ys : List (List Char)) :
    joinA (x :: x2 :: xs) ys = x :: joinA (x2 :: xs) ys := by
  simp only [joinA]

/-- Unfolding equation for `joinA` on a singleton left list. -/
theorem joinA_single (x y : List Char) (yt : List (List Char)) :
    joinA [x] (y :: yt) = (x ++ y) :: yt := by
  simp only [joinA]

/-- Newline splitting never yields an empty group list. -/
theorem splitNL_ne_nil (l : List Char) : splitNL l ≠ [] := by
  cases l with
  | nil => simp [splitNL]
  | cons c cs =>
    rw [splitNL_cons]
    by_cases h : c = '\n'
    · simp [h]
    · rw [if_neg h]
      cases hs : splitNL cs with
      | nil => simp
      | cons g gs => simp

/-- The only string splitting into a single empty group is the empty one. -/
theorem splitNL_eq_single_nil (l : List Char) (h : splitNL l = [[]]) : l = [] := by
  cases l with
  | nil => rfl
  | cons c cs =>
    exfalso
    rw [splitNL_cons] at h
    by_cases hc : c = '\n'
    · rw [if_pos hc] at h
      injection h with h1 h2
      exact splitNL_ne_nil cs h2
    · rw [if_neg hc] at h
      cases hs : splitNL cs with
      | nil => rw [hs] at h; simp at h
      | cons g gs => rw [hs] at h; simp at h

/-- Newline splitting distributes over concatenation via `joinA`. -/
theorem splitNL_append (A B : List Char) :
    splitNL (A ++ B) = joinA (splitNL A) (splitNL B) := by
  induction A with
  | nil =>
    cases hB : splitNL B with
    | nil => exact absurd hB (splitNL_ne_nil B)
    | cons y yt =>
      show splitNL ([] ++ B) = joinA [[]] (y :: yt)
      rw [List.nil_append, hB, joinA_single]
      simp
  | cons c A2 ih =>
    rw [List.cons_append, splitNL_cons c (A2 ++ B), splitNL_cons c A2, ih]
    by_cases hc : c = '\n'
    · rw [if_pos hc, if_pos hc]
      cases hA : splitNL A2 with
      | nil => exact absurd hA (splitNL_ne_nil A2)
      | cons x xs => rw [joinA_cons_cons]
    · rw [if_neg hc, if_neg hc]
      cases hA : splitNL A2 with
      | nil => exact absurd hA (splitNL_ne_nil A2)
      | cons x xs =>
        cases xs with
        | nil =>
          cases hB : splitNL B with
          | nil => exact absurd hB (splitNL_ne_nil B)
          | cons y yt =>
            rw [joinA_single, joinA_single]
            simp
        | cons x2 xs2 =>
          rw [joinA_cons_cons, joinA_cons_cons]

/-- Every character of every group comes from the split string. -/
theorem mem_splitNL_subset (l : List Char) (g : List Char) (hg : g ∈ splitNL l) :
    ∀ c ∈ g, c ∈ l := by
  induction l generalizing g with
  | nil =>
    simp only [splitNL, List.mem_singleton] at hg
    subst hg
    simp
  | cons a l2 ih =>
    rw [splitNL_cons] at hg
    by_cases ha : a = '\n'
    · rw [if_pos ha] at hg
      rcases List.mem_cons.1 hg with h | h
      · subst h; simp
      · intro c hc
        exact List.mem_cons_of_mem _ (ih g h c hc)
    · rw [if_neg ha] at hg
      cases hs : splitNL l2 with
      | nil => exact absurd hs (splitNL_ne_nil l2)
      | cons x xs =>
        rw [hs] at hg
        rcases List.mem_cons.1 hg with h | h
        · subst h
          intro c hc
          rcases List.mem_cons.1 hc with h2 | h2
          · subst h2; simp
          · exact List.mem_cons_of_mem _
              (ih x (by rw [hs]; exact List.mem_cons_self _ _) c h2)
        · intro c hc
          exact List.mem_cons_of_mem _
            (ih g (by rw [hs]; exact List.mem_cons_of_mem _ h) c hc)

/-- A trailing newline makes the last split group empty. -/
theorem splitNL_last_nl (A : List Char) (h : A.getLast? = some '\n') :
    ∃ xs, splitNL A = xs ++ [[]] := by
  induction A with
  | nil => simp at h
  | cons c A2 ih =>
    cases A2 with
    | nil =>
      simp only [List.getLast?_singleton, Option.some.injEq] at h
      subst h
      exact ⟨[[]], rfl⟩
    | cons d A3 =>
      have h2 : (d :: A3).getLast? = some '\n' := by
        rwa [List.getLast?_cons_cons] at h
      obtain ⟨xs2, hxs2⟩ := ih h2
      by_cases hc : c = '\n'
      · subst hc
        refine ⟨[] :: xs2, ?_⟩
        rw [splitNL_cons, if_pos rfl, hxs2]
        rfl
      · rw [splitNL_cons, if_neg hc, hxs2]
        cases xs2 with
        | nil =>
          exfalso
          simp only [List.nil_append] at hxs2
          exact List.cons_ne_nil d A3 (splitNL_eq_single_nil _ hxs2)
        | cons x2 xs3 =>
          exact ⟨(c :: x2) :: xs3, by simp⟩

/-- Merging with an empty-group head appends the tails. -/
theorem joinA_nil_head (xs yt : List (List Char)) (hxs : xs ≠ []) :
    joinA xs ([] :: yt) = xs ++ yt := by
  induction xs with
  | nil => exact absurd rfl hxs
  | cons x xs2 ih =>
    cases xs2 with
    | nil =>
      rw [joinA_single]
      simp
    | cons x2 xs3 =>
      rw [joinA_cons_cons, ih (List.cons_ne_nil _ _)]
      rfl

/-- `joinA` with a sacrificial last group on the left splits off. -/
theorem joinA_append_single (xs : List (List Char)) (x : List Char)
    (ys : List (List Char)) :
    joinA (xs ++ [x]) ys = xs ++ joinA [x] ys := by
  induction xs with
  | nil => rfl
  | cons a xs2 ih =>
    rw [List.cons_append]
    cases hx : xs2 ++ [x] with
    | nil => simp at hx
    | cons b bs =>
      have ih2 : joinA (b :: bs) ys = xs2 ++ joinA [x] ys := by
        rw [← hx]
        exact ih
      rw [joinA_cons_cons, ih2, List.cons_append]

/-- Dropping a satisfied prefix skips a fully-satisfying block. -/
theorem dropWhile_append_all (p : Char → Bool) (w g : List Char)
    (hw : ∀ c ∈ w, p c = true) : (w ++ g).dropWhile p = g.dropWhile p := by
  induction w with
  | nil => simp
  | cons c ws ih =>
    rw [List.cons_append, List.dropWhile_cons_of_pos (hw c (List.mem_cons_self _ _))]
    exact ih (fun d hd => hw d (List.mem_cons_of_mem _ hd))

/-- A fully-satisfying list is dropped entirely. -/
theorem dropWhile_all (p : Char → Bool) (l : List Char)
    (h : ∀ c ∈ l, p c = true) : l.dropWhile p = [] := by
  have hh := dropWhile_append_all p l [] h
  simpa using hh

/-- A fully-satisfying suffix is removed by the trailing drop. -/
theorem dropTrailing_append_all (p : Char → Bool) (g w : List Char)
    (hw : ∀ c ∈ w, p c = true) : dropTrailing p (g ++ w) = dropTrailing p g := by
  unfold dropTrailing
  rw [List.reverse_append, dropWhile_append_all p w.reverse g.reverse
    (fun c hc => hw c (List.mem_reverse.1 hc))]

/-- Edge-stripping ignores a fully-satisfying prefix. -/
theorem edge_ws_append (p : Char → Bool) (w g : List Char)
    (hw : ∀ c ∈ w, p c = true) :
    dropTrailing p ((w ++ g).dropWhile p) = dropTrailing p (g.dropWhile p) := by
  rw [dropWhile_append_all p w g hw]

/-- Edge-stripping ignores a fully-satisfying suffix. -/
theorem edge_append_ws (p : Char → Bool) (g w : List Char)
    (hw : ∀ c ∈ w, p c = true) :
    dropTrailing p ((g ++ w).dropWhile p) = dropTrailing p (g.dropWhile p) := by
  induction g with
  | nil =>
    rw [List.nil_append, dropWhile_all p w hw]
    rfl
  | cons c gs ih =>
    by_cases hc : p c = true
    · rw [List.cons_append, List.dropWhile_cons_of_pos hc,
        List.dropWhile_cons_of_pos hc]
      exact ih
    · rw [List.cons_append, List.dropWhile_cons_of_neg (by simpa using hc),
        List.dropWhile_cons_of_neg (by simpa using hc), ← List.cons_append]
      exact dropTrailing_append_all p (c :: gs) w hw

/-- `strip` ignores a leading all-whitespace block. -/
theorem pyStrip_ws_append (w g : List Char)
    (hw : ∀ c ∈ w, pyIsSpace c = true) : pyStrip (w ++ g) = pyStrip g :=
  edge_ws_append pyIsSpace w g hw

/-- `strip` ignores a trailing all-whitespace block. -/
theorem pyStrip_append_ws (g w : List Char)
    (hw : ∀ c ∈ w, pyIsSpace c = true) : pyStrip (g ++ w) = pyStrip g :=
  edge_append_ws pyIsSpace g w hw

/-- `json.loads` ignores a leading all-JSON-whitespace block. -/
theorem json_loads_ws_append (w g : List Char)
    (hw : ∀ c ∈ w, isJsonWs c = true) : json_loads (w ++ g) = json_loads g := by
  simp only [json_loads]
  rw [show trimJsonWs (w ++ g) = trimJsonWs g from edge_ws_append isJsonWs w g hw]

/-- `json.loads` ignores a trailing all-JSON-whitespace block. -/
theorem json_loads_append_ws (g w : List Char)
    (hw : ∀ c ∈ w, isJsonWs c = true) : json_loads (g ++ w) = json_loads g := by
  simp only [json_loads]
  rw [show trimJsonWs (g ++ w) = trimJsonWs g from edge_append_ws isJsonWs g w hw]

/-- The classification content of a line is unchanged by a leading block of
tame whitespace. -/
theorem eventOf_ws_append (w g : List Char)
    (hw : ∀ c ∈ w, pyIsSpace c = true ∧ isJsonWs c = true) :
    eventOf (w ++ g) = eventOf g := by
  unfold eventOf
  rw [pyStrip_ws_append w g (fun c hc => (hw c hc).1),
    json_loads_ws_append w g (fun c hc => (hw c hc).2)]

/-- The classification content of a line is unchanged by a trailing block of
tame whitespace. -/
theorem eventOf_append_ws (g w : List Char)
    (hw : ∀ c ∈ w, pyIsSpace c = true ∧ isJsonWs c = true) :
    eventOf (g ++ w) = eventOf g := by
  unfold eventOf
  rw [pyStrip_append_ws g w (fun c hc => (hw c hc).1),
    json_loads_append_ws g w (fun c hc => (hw c hc).2)]

/-- An all-whitespace line carries no event. -/
theorem eventOf_all_ws (g : List Char) (hg : ∀ c ∈ g, pyIsSpace c = true) :
    eventOf g = none := by
  unfold eventOf
  rw [if_pos]
  unfold pyStrip
  rw [dropWhile_all pyIsSpace g hg]
  rfl

/-- All-whitespace groups contribute no events. -/
theorem filterMap_eventOf_allws (ws : List (List Char))
    (h : ∀ g ∈ ws, ∀ c ∈ g, pyIsSpace c = true) : ws.filterMap eventOf = [] := by
  induction ws with
  | nil => rfl
  | cons g gs ih =>
    rw [List.filterMap_cons, eventOf_all_ws g (h g (List.mem_cons_self g gs))]
    exact ih (fun g2 hg2 => h g2 (List.mem_cons_of_mem g hg2))

/-- Merging a block of all-tame-whitespace groups on the left leaves the
event sequence unchanged. -/
theorem joinA_filterMap_ws_left (ws ys : List (List Char))
    (hws : ∀ g ∈ ws, ∀ c ∈ g, pyIsSpace c = true ∧ isJsonWs c = true)
    (hys : ys ≠ []) :
    (joinA ws ys).filterMap eventOf = ys.filterMap eventOf := by
  induction ws with
  | nil => rfl
  | cons x xs ih =>
    cases xs with
    | nil =>
      cases ys with
      | nil => exact absurd rfl hys
      | cons y yt =>
        rw [joinA_single, List.filterMap_cons, List.filterMap_cons,
          eventOf_ws_append x y (hws x (List.mem_cons_self x []))]
    | cons x2 xt =>
      rw [joinA_cons_cons, List.filterMap_cons,
        eventOf_all_ws x (fun c hc => (hws x (List.mem_cons_self _ _) c hc).1)]
      exact ih (fun g hg => hws g (List.mem_cons_of_mem x hg))

/-- Merging a block of all-tame-whitespace groups on the right leaves the
event sequence unchanged. -/
theorem joinA_filterMap_ws_right (ys ws : List (List Char))
    (hws : ∀ g ∈ ws, ∀ c ∈ g, pyIsSpace c = true ∧ isJsonWs c = true) :
    (joinA ys ws).filterMap eventOf = ys.filterMap eventOf := by
  induction ys with
  | nil =>
    show ws.filterMap eventOf = []
    exact filterMap_eventOf_allws ws (fun g hg c hc => (hws g hg c hc).1)
  | cons x xs ih =>
    cases xs with
    | nil =>
      cases ws with
      | nil => rfl
      | cons w wt =>
        rw [joinA_single, List.filterMap_cons, List.filterMap_cons,
          eventOf_append_ws x w (fun c hc => hws w (List.mem_cons_self _ _) c hc),
          filterMap_eventOf_allws wt
            (fun g hg c hc => (hws g (List.mem_cons_of_mem w hg) c hc).1)]
        cases eventOf x <;> rfl
    | cons x2 xt =>
      rw [joinA_cons_cons, List.filterMap_cons, List.filterMap_cons, ih]

/-- `splitNL` events are unchanged by a leading all-tame-whitespace block. -/
theorem filterMap_splitNL_ws_append (W G : List Char)
    (hW : ∀ c ∈ W, pyIsSpace c = true ∧ isJsonWs c = true) :
    (splitNL (W ++ G)).filterMap eventOf = (splitNL G).filterMap eventOf := by
  rw [splitNL_append]
  exact joinA_filterMap_ws_left (splitNL W) (splitNL G)
    (fun g hg c hc => hW c (mem_splitNL_subset W g hg c hc)) (splitNL_ne_nil G)

/-- `splitNL` events are unchanged by a trailing all-tame-whitespace block. -/
theorem filterMap_splitNL_append_ws (G W : List Char)
    (hW : ∀ c ∈ W, pyIsSpace c = true ∧ isJsonWs c = true) :
    (splitNL (G ++ W)).filterMap eventOf = (splitNL G).filterMap eventOf := by
  rw [splitNL_append]
  exact joinA_filterMap_ws_right (splitNL G) (splitNL W)
    (fun g hg c hc => hW c (mem_splitNL_subset W g hg c hc))

/-- Every string is its stripped core surrounded by its whitespace margins. -/
theorem strip_decomp (D : List Char) :
    D = D.takeWhile pyIsSpace ++ pyStrip D ++
      ((D.dropWhile pyIsSpace).reverse.takeWhile pyIsSpace).reverse := by
  unfold pyStrip dropTrailing
  conv_lhs => rw [← List.takeWhile_append_dropWhile pyIsSpace D]
  rw [List.append_assoc]
  congr 1
  conv_lhs => rw [← List.reverse_reverse (D.dropWhile pyIsSpace)]
  conv_lhs => rw [← List.takeWhile_append_dropWhile pyIsSpace
    (D.dropWhile pyIsSpace).reverse]
  rw [List.reverse_append]

/-- Under tame whitespace, the chunk's events are those of its raw (unstripped)
line split. -/
theorem chunkEvents_eq_raw (D : List Char) (hD : tameWs D = true) :
    chunkEvents D = (splitNL D).filterMap eventOf := by
  have htame : ∀ c ∈ D, pyIsSpace c = true → isJsonWs c = true := by
    intro c hc hs
    have h1 := (List.all_eq_true.1 hD) c hc
    rw [hs] at h1
    simpa using h1
  have hP : ∀ c ∈ D.takeWhile pyIsSpace, pyIsSpace c = true ∧ isJsonWs c = true := by
    intro c hc
    have h1 := List.mem_takeWhile_imp hc
    exact ⟨h1, htame c ((List.takeWhile_prefix pyIsSpace).subset hc) h1⟩
  have hS : ∀ c ∈ ((D.dropWhile pyIsSpace).reverse.takeWhile pyIsSpace).reverse,
      pyIsSpace c = true ∧ isJsonWs c = true := by
    intro c hc
    rw [List.mem_reverse] at hc
    have h1 := List.mem_takeWhile_imp hc
    have h2 : c ∈ D :=
      (List.dropWhile_sublist pyIsSpace).subset
        (List.mem_reverse.1 ((List.takeWhile_prefix pyIsSpace).subset hc))
    exact ⟨h1, htame c h2 h1⟩
  conv_rhs => rw [strip_decomp D]
  rw [List.append_assoc,
    filterMap_splitNL_ws_append (D.takeWhile pyIsSpace) _ hP,
    filterMap_splitNL_append_ws (pyStrip D) _ hS]
  rfl

/-- The empty line carries no event. -/
theorem eventOf_nil : eventOf [] = none := by
  exact eventOf_all_ws [] (fun c hc => absurd hc (List.not_mem_nil c))

/-- The singleton empty group is all whitespace (vacuously). -/
theorem singleton_nil_ws :
    ∀ g ∈ ([[]] : List (List Char)), ∀ c ∈ g,
      pyIsSpace c = true ∧ isJsonWs c = true := by
  intro g hg c hc
  rw [List.mem_singleton] at hg
  subst hg
  exact absurd hc (List.not_mem_nil c)

/-- Under tame whitespace, cutting a chunk at a line boundary splits its
event sequence. -/
theorem chunkEvents_append_boundary (A B : List Char)
    (hA : tameWs A = true) (hB : tameWs B = true)
    (hb : A = [] ∨ B = [] ∨ A.getLast? = some '\n' ∨ B.head? = some '\n') :
    chunkEvents (A ++ B) = chunkEvents A ++ chunkEvents B := by
  have hAB : tameWs (A ++ B) = true := by
    unfold tameWs at hA hB ⊢
    rw [List.all_append, hA, hB]
    rfl
  rw [chunkEvents_eq_raw (A ++ B) hAB, chunkEvents_eq_raw A hA,
    chunkEvents_eq_raw B hB, splitNL_append]
  rcases hb with h | h | h | h
  · subst h
    have h0 : splitNL ([] : List Char) = [[]] := rfl
    rw [h0, joinA_filterMap_ws_left [[]] (splitNL B) singleton_nil_ws
        (splitNL_ne_nil B),
      filterMap_eventOf_allws [[]] (fun g hg c hc => (singleton_nil_ws g hg c hc).1),
      List.nil_append]
  · subst h
    have h0 : splitNL ([] : List Char) = [[]] := rfl
    rw [h0, joinA_filterMap_ws_right (splitNL A) [[]] singleton_nil_ws,
      filterMap_eventOf_allws [[]] (fun g hg c hc => (singleton_nil_ws g hg c hc).1),
      List.append_nil]
  · obtain ⟨xs, hxs⟩ := splitNL_last_nl A h
    rw [hxs, joinA_append_single, List.filterMap_append, List.filterMap_append,
      joinA_filterMap_ws_left [[]] (splitNL B) singleton_nil_ws (splitNL_ne_nil B),
      filterMap_eventOf_allws [[]] (fun g hg c hc => (singleton_nil_ws g hg c hc).1),
      List.append_nil]
  · cases B with
    | nil => simp at h
    | cons b B2 =>
      simp only [List.head?_cons, Option.some.injEq] at h
      subst h
      rw [splitNL_cons, if_pos rfl,
        joinA_nil_head (splitNL A) (splitNL B2) (splitNL_ne_nil A),
        List.filterMap_append, List.filterMap_cons, eventOf_nil]

/-- When no event of the line list raises, the line loop is the fold of the
dispatcher over the parsed events. -/
theorem runLines_eq_foldl (now : Nat) (st : SessionState) (lines : List (List Char))
    (hsafe : ∀ j ∈ lines.filterMap eventOf, jsonAborts j = false) :
    runLines now st lines =
      (lines.filterMap eventOf).foldl (fun s j => applyJson s now j) st := by
  induction lines generalizing st with
  | nil => rfl
  | cons l ls ih =>
    by_cases hblank : pyStrip l = []
    · have he : eventOf l = none := by
        unfold eventOf
        rw [if_pos hblank]
      rw [List.filterMap_cons, he]
      unfold runLines
      rw [if_pos hblank]
      exact ih st (fun j hj => hsafe j (by rw [List.filterMap_cons, he]; exact hj))
    · have he : eventOf l = json_loads l := by
        unfold eventOf
        rw [if_neg hblank]
      unfold runLines
      rw [if_neg hblank, List.filterMap_cons, he]
      cases hj : json_loads l with
      | none =>
        exact ih st (fun j hjm => hsafe j (by rw [List.filterMap_cons, he, hj]; exact hjm))
      | some j =>
        have hsafe2 : ∀ j2 ∈ ls.filterMap eventOf, jsonAborts j2 = false :=
          fun j2 hj2 => hsafe j2 (by
            rw [List.filterMap_cons, he, hj]
            exact List.mem_cons_of_mem j hj2)
        cases j with
        | obj kvs =>
          have hnr : eventRaises kvs = false := by
            have := hsafe (Json.obj kvs) (by
              rw [List.filterMap_cons, he, hj]
              exact List.mem_cons_self _ _)
            simpa [jsonAborts] using this
          dsimp only
          rw [hnr, if_neg Bool.false_ne_true]
          exact ih (applyEvent st now kvs) hsafe2
        | null => exact ih st hsafe2
        | bool b => exact ih st hsafe2
        | num s => exact ih st hsafe2
        | str s => exact ih st hsafe2
        | arr xs => exact ih st hsafe2

/-- A non-raising chunk's processing is the fold of the dispatcher over its
event sequence. -/
theorem process_eq_foldl (st : SessionState) (now : Nat) (D : List Char)
    (hsafe : chunkSafe D = true) :
    process_system_messages st now D =
      (chunkEvents D).foldl (fun s j => applyJson s now j) st := by
  have hs : ∀ j ∈ chunkEvents D, jsonAborts j = false := by
    intro j hj
    have := (List.all_eq_true.1 hsafe) j hj
    simpa using this
  exact runLines_eq_foldl now st (splitNL (pyStrip D)) hs

/-- Tame whitespace splits over concatenation. -/
theorem tameWs_append (A B : List Char) (h : tameWs (A ++ B) = true) :
    tameWs A = true ∧ tameWs B = true := by
  unfold tameWs at h ⊢
  rw [List.all_append, Bool.and_eq_true] at h
  exact h

/-- Under a tame line-boundary cut, chunk safety splits over concatenation. -/
theorem chunkSafe_append (A B : List Char)
    (hA : tameWs A = true) (hB : tameWs B = true)
    (hb : A = [] ∨ B = [] ∨ A.getLast? = some '\n' ∨ B.head? = some '\n')
    (h : chunkSafe (A ++ B) = true) :
    chunkSafe A = true ∧ chunkSafe B = true := by
  unfold chunkSafe at h ⊢
  rw [chunkEvents_append_boundary A B hA hB hb, List.all_append,
    Bool.and_eq_true] at h
  exact h

/-- Under a tame line-boundary cut of a non-raising chunk, processing the two
halves in order equals processing the whole. -/
theorem process_append (st : SessionState) (now : Nat) (A B : List Char)
    (hA : tameWs A = true) (hB : tameWs B = true)
    (hb : A = [] ∨ B = [] ∨ A.getLast? = some '\n' ∨ B.head? = some '\n')
    (hsafe : chunkSafe (A ++ B) = true) :
    process_system_messages (process_system_messages st now A) now B =
      process_system_messages st now (A ++ B) := by
  obtain ⟨hsA, hsB⟩ := chunkSafe_append A B hA hB hb hsafe
  rw [process_eq_foldl (process_system_messages st now A) now B hsB,
    process_eq_foldl st now A hsA,
    process_eq_foldl st now (A ++ B) hsafe,
    chunkEvents_append_boundary A B hA hB hb, List.foldl_append]

/-- C7. CORRECTED. The claimed split-invariance fails in general (a raising
line abandons only the rest of its own chunk, so splitting after it rescues
later lines; exotic-whitespace at a cut edge changes which lines parse). It
holds for every line-boundary split of a chunk whose whitespace is tame
(every `str.strip`-whitespace character is also JSON whitespace) and whose
events none raise: processing the sub-chunks in order yields the same final
SessionState as processing the chunk whole. -/
theorem C7_amended (st : SessionState) (now : Nat) (Ds : List (List Char))
    (hok : okSplit Ds) (htame : tameWs Ds.flatten = true)
    (hsafe : chunkSafe Ds.flatten = true) :
    processChunks st now Ds = process_system_messages st now Ds.flatten := by
  induction Ds generalizing st with
  | nil => rfl
  | cons D rest ih =>
    cases rest with
    | nil =>
      show process_system_messages st now D = _
      rw [show ([D]).flatten = D by simp]
    | cons D2 Ds2 =>
      obtain ⟨hb, hok2⟩ := hok
      have hflat : (D :: D2 :: Ds2).flatten = D ++ (D2 :: Ds2).flatten := rfl
      rw [hflat] at htame hsafe
      obtain ⟨htA, htB⟩ := tameWs_append _ _ htame
      obtain ⟨hsA, hsB⟩ := chunkSafe_append _ _ htA htB hb hsafe
      show processChunks (process_system_messages st now D) now (D2 :: Ds2) = _
      rw [ih (process_system_messages st now D) hok2 htB hsB, hflat]
      exact process_append st now D ((D2 :: Ds2).flatten) htA htB hb hsafe

/-- C7. Counterexample to the unconditional claim: the chunk
`\x7b"type":"engine","message":5\x7d\n` followed by a tool_blurb line is a
line-boundary split, yet processing the two sub-chunks in order appends the
blurb message while processing the whole chunk does not — the non-string
message raises past the inner handler and abandons the rest of the chunk. -/
theorem C7_counterexample :
    okSplit [cexRaise, cexTB] ∧
    processChunks initState 7 [cexRaise, cexTB] ≠
      process_system_messages initState 7 ([cexRaise, cexTB]).flatten := by
  constructor
  · decide
  · decide

/-- C7. Witness: a concrete tame, non-raising two-chunk line-boundary split
on which the amended invariance theorem applies. -/
theorem C7_amended_witness :
    okSplit [cexPlain, cexTB] ∧ tameWs ([cexPlain, cexTB]).flatten = true ∧
    chunkSafe ([cexPlain, cexTB]).flatten = true ∧
    processChunks initState 7 [cexPlain, cexTB] =
      process_system_messages initState 7 ([cexPlain, cexTB]).flatten :=
  ⟨by decide, by decide, by decide,
    C7_amended initState 7 [cexPlain, cexTB] (by decide) (by decide) (by decide)⟩

/-- `json.loads` accepts the CPython-default non-standard constants (and only
their exact spellings). -/
theorem json_loads_constants :
    json_loads ("NaN".toList) = some (Json.num ("NaN".toList)) ∧
    json_loads ("Infinity".toList) = some (Json.num ("Infinity".toList)) ∧
    json_loads ("-Infinity".toList) = some (Json.num ("-Infinity".toList)) ∧
    json_loads ("nan".toList) = none ∧
    json_loads ("NaNx".toList) = none := by
  exact ⟨by decide, by decide, by decide, by decide, by decide⟩

/-- An engine event with `NaN` message parses (it is not skipped as
non-JSON) and its classification raises, so such a chunk is not
`chunkSafe`. -/
theorem nan_engine_event_aborts :
    (json_loads ("\x7b\"type\":\"engine\",\"message\":NaN\x7d".toList)).isSome = true ∧
    chunkSafe ("\x7b\"type\":\"engine\",\"message\":NaN\x7d".toList) = false := by
  exact ⟨by decide, by decide⟩

/-- A chosen span whose `content` is `NaN` parses and then raises
(`clean_response_formatting` on a truthy non-string), rather than taking the
plain-text fallback. -/
theorem nan_content_raises :
    json_loads (chosenSpan (pyStrip
      ("\x7b\"content\": NaN, \"metadata\": \x7b\x7d\x7d".toList))) ≠ none ∧
    response_message ("\x7b\"content\": NaN, \"metadata\": \x7b\x7d\x7d".toList) =
      PyOutcome.raised := by
  exact ⟨by decide, by decide⟩
